import Mathlib

/-!
Verification of the stabmcp server: shallow embedding of the API-key
fallback/rotation utilities, the base64/data-URI image helpers, the
hand-rolled JSON-RPC/SSE dispatcher of `src/index.ts`, and the SSE
connection bookkeeping, together with proofs of the specified
properties.
-/

namespace StabMCP

/-! ## Base64 and data-URI helpers (src/unnamed/part_002)

Node's `Buffer.toString('base64')` and `Buffer.from(s, 'base64')` are
modelled by `encodeB64` / `decodeB64` over byte lists (standard RFC 4648
alphabet with `=` padding).  Node tolerates stray non-alphabet
characters when decoding; that tolerance is never exercised here because
the data-URI prefix is stripped by the regex before decoding for every
MIME type the claims consider. -/

def base64Chars : List Char :=
  "ABCDEFGHIJKLMNOPQRSTUVWXYZabcdefghijklmnopqrstuvwxyz0123456789+/".data

def sextetChar (n : Nat) : Char :=
  base64Chars.getD n '='

def charSextet (c : Char) : Option Nat :=
  base64Chars.findIdx? (fun d => d == c)

def encodeB64 : List Nat → List Char
  | [] => []
  | [a] => [sextetChar (a / 4), sextetChar (a % 4 * 16), '=', '=']
  | [a, b] => [sextetChar (a / 4), sextetChar (a % 4 * 16 + b / 16),
      sextetChar (b % 16 * 4), '=']
  | a :: b :: c :: rest =>
      sextetChar (a / 4) :: sextetChar (a % 4 * 16 + b / 16) ::
      sextetChar (b % 16 * 4 + c / 64) :: sextetChar (c % 64) :: encodeB64 rest

def decodeB64 : List Char → List Nat
  | c0 :: c1 :: c2 :: c3 :: rest =>
    match charSextet c0, charSextet c1 with
    | some s0, some s1 =>
      if c2 = '=' then [s0 * 4 + s1 / 16]
      else
        match charSextet c2 with
        | some s2 =>
          if c3 = '=' then [s0 * 4 + s1 / 16, s1 % 16 * 16 + s2 / 4]
          else
            match charSextet c3 with
            | some s3 =>
                (s0 * 4 + s1 / 16) :: (s1 % 16 * 16 + s2 / 4) ::
                (s2 % 4 * 64 + s3) :: decodeB64 rest
            | none => []
        | none => []
    | _, _ => []
  | _ => []

/-- Drops the character list `p` from the front of `s`, or fails. -/
def dropPrefixCh : List Char → List Char → Option (List Char)
  | [], s => some s
  | _ :: _, [] => none
  | p :: ps, c :: cs => if c = p then dropPrefixCh ps cs else none

/-- Models `s.replace(/^data:image\/[a-z]+;base64,/, '')` from
`base64ToBuffer`: strip the data-URI header when the anchored pattern
matches, otherwise return the string unchanged. -/
def stripDataUri (s : List Char) : List Char :=
  match dropPrefixCh ("data:image/".data) s with
  | none => s
  | some rest =>
    match rest.takeWhile Char.isLower, dropPrefixCh (";base64,".data) (rest.dropWhile Char.isLower) with
    | _ :: _, some tail => tail
    | _, _ => s

/-- `base64ToBuffer` from `src/unnamed/part_002`:
`Buffer.from(base64.replace(/^data:image\/[a-z]+;base64,/, ''), 'base64')`. -/
def base64ToBuffer (base64 : List Char) : List Nat :=
  decodeB64 (stripDataUri base64)

/-- `bufferToBase64` from `src/unnamed/part_002`:
`` `data:${mimeType};base64,${buffer.toString('base64')}` ``. -/
def bufferToBase64 (buffer : List Nat) (mimeType : List Char) : List Char :=
  "data:".data ++ mimeType ++ ";base64,".data ++ encodeB64 buffer

/-! ## API key pool and fallback (src/unnamed/part_001)

`API_KEYS` / `currentApiKeyIndex` are module-level mutable state in the
source; they are embedded as an explicit `ApiKeyState` threaded through
the operations.  JavaScript exceptions become `Except` errors; an
`ApiError` carries the message and the optional `error.response?.status`
inspected by the fallback loop. -/

structure ApiError where
  message : String
  status : Option Nat
deriving Repr, DecidableEq

structure ApiKeyState where
  keys : List String
  currentApiKeyIndex : Nat
deriving Repr, DecidableEq

/-- `getCurrentApiKey` (part_001 lines 141-146): throws when no keys are
configured, otherwise returns `API_KEYS[currentApiKeyIndex]`.  An
out-of-range index yields `undefined` in JS; it is unreachable from
index 0 (the rotation invariant) and modelled by the `getD` default. -/
def getCurrentApiKey (s : ApiKeyState) : Except ApiError String :=
  if s.keys.length = 0 then
    Except.error ⟨"No Stability AI API keys configured", none⟩
  else
    Except.ok (s.keys.getD s.currentApiKeyIndex "")

/-- `rotateApiKey` (part_001 lines 152-159): no-op (returning the current
key) when the pool has at most one key, otherwise advances the index
modulo the pool size and returns the new current key. -/
def rotateApiKey (s : ApiKeyState) : Except ApiError (String × ApiKeyState) :=
  if s.keys.length ≤ 1 then
    (getCurrentApiKey s).map (fun k => (k, s))
  else
    let s2 : ApiKeyState := ⟨s.keys, (s.currentApiKeyIndex + 1) % s.keys.length⟩
    Except.ok (s2.keys.getD s2.currentApiKeyIndex "", s2)

/-- The state after a call to `rotateApiKey`; a thrown error leaves the
module state untouched. -/
def rotateState (s : ApiKeyState) : ApiKeyState :=
  match rotateApiKey s with
  | Except.ok (_, s2) => s2
  | Except.error _ => s

/-- `error.response?.status === 401 || error.response?.status === 403`. -/
def isAuthError (e : ApiError) : Bool :=
  e.status == some 401 || e.status == some 403

/-- One observable step of `executeWithApiFallback`: an invocation of the
`apiCall` argument with its result, a key rotation (recording the new
index), a backoff sleep (in seconds), or a throw inside
`getCurrentApiKey`. -/
inductive FbStep (T : Type) where
  | call (attempt : Nat) (key : String) (result : Except ApiError T)
  | rotated (newIndex : Nat)
  | slept (seconds : Nat)
  | keyLookupFailed (attempt : Nat) (e : ApiError)

/-- Outcome of a run of `executeWithApiFallback`: the returned value or
thrown error, the final module state, and the trace of steps. -/
structure FbRun (T : Type) where
  result : Except ApiError T
  state : ApiKeyState
  steps : List (FbStep T)

/-- The `for (let attempt = 0; attempt < maxRetries; attempt++)` loop of
`executeWithApiFallback` (part_001 lines 167-197).  `apiCall` is the
effectful call function, given as an oracle from the invocation number
and the supplied key to the settled outcome of that invocation.
`remaining` counts the iterations still to run, so the current attempt
index is `maxRetries - remaining`; the backoff sleep of
`2 ^ attempt` seconds happens whenever `attempt < maxRetries - 1`,
i.e. whenever another iteration follows. -/
def fallbackLoop {T : Type} (apiCall : Nat → String → Except ApiError T)
    (maxRetries : Nat) : Nat → ApiKeyState → Option ApiError → FbRun T
  | 0, s, lastError =>
      ⟨Except.error (lastError.getD ⟨"All API key attempts failed", none⟩), s, []⟩
  | r + 1, s, _lastError =>
    let attempt := maxRetries - (r + 1)
    match getCurrentApiKey s with
    | Except.error e =>
      let sleeps := if 0 < r then [FbStep.slept (2 ^ attempt)] else []
      let rest := fallbackLoop apiCall maxRetries r s (some e)
      ⟨rest.result, rest.state, FbStep.keyLookupFailed attempt e :: (sleeps ++ rest.steps)⟩
    | Except.ok key =>
      match apiCall attempt key with
      | Except.ok v => ⟨Except.ok v, s, [FbStep.call attempt key (Except.ok v)]⟩
      | Except.error e =>
        let s2 := if isAuthError e then rotateState s else s
        let rots := if isAuthError e then [FbStep.rotated s2.currentApiKeyIndex] else []
        let sleeps := if 0 < r then [FbStep.slept (2 ^ attempt)] else []
        let rest := fallbackLoop apiCall maxRetries r s2 (some e)
        ⟨rest.result, rest.state,
          FbStep.call attempt key (Except.error e) :: (rots ++ sleeps ++ rest.steps)⟩

/-- `executeWithApiFallback` with an explicit `maxRetries` argument. -/
def executeWithApiFallback {T : Type} (apiCall : Nat → String → Except ApiError T)
    (maxRetries : Nat) (s : ApiKeyState) : FbRun T :=
  fallbackLoop apiCall maxRetries maxRetries s none

/-- `executeWithApiFallback` with the default budget
`maxRetries = API_KEYS.length`. -/
def executeWithApiFallbackDefault {T : Type} (apiCall : Nat → String → Except ApiError T)
    (s : ApiKeyState) : FbRun T :=
  executeWithApiFallback apiCall s.keys.length s

/-- Net effect of a trace step on the key-pool state: each recorded call
that failed with an auth status rotates the pool, everything else leaves
it alone. -/
def stepRotEffect {T : Type} (st : ApiKeyState) : FbStep T → ApiKeyState
  | FbStep.call _ _ (Except.error e) => if isAuthError e then rotateState st else st
  | _ => st

/-- The errors observed by the loop (`lastError` assignments), in order. -/
def recordedErrors {T : Type} (steps : List (FbStep T)) : List ApiError :=
  steps.filterMap (fun step =>
    match step with
    | FbStep.call _ _ (Except.error e) => some e
    | FbStep.keyLookupFailed _ e => some e
    | _ => none)

/-! ## JavaScript values and the JSON-RPC dispatcher (src/index.ts)

`Json` models the JavaScript values flowing through the dispatcher:
everything `JSON.parse` can produce, plus `bytes` for Node `Buffer`
values that tool handlers may return.  `JSON.parse` itself is not
re-implemented: the dispatcher is given the parse outcome
(`none` = the parse threw). -/

inductive Json where
  | null
  | bool (b : Bool)
  | num (n : Int)
  | str (s : String)
  | arr (elems : List Json)
  | obj (fields : List (String × Json))
  | bytes (data : List Nat)

/-- Object field lookup with JS `JSON.parse` semantics: the last
occurrence of a duplicated key wins. -/
def lookupField (fields : List (String × Json)) (k : String) : Option Json :=
  match fields with
  | [] => none
  | (k2, v) :: rest =>
    match lookupField rest k with
    | some v2 => some v2
    | none => if k2 = k then some v else none

/-- Property access `value[k]` on a non-null value: `undefined` (`none`)
unless the value is an object with the field.  (Intrinsic properties of
arrays, strings and buffers are not modelled; no claim touches them.) -/
def objGet (j : Json) (k : String) : Option Json :=
  match j with
  | Json.obj fields => lookupField fields k
  | _ => none

/-- JavaScript truthiness of a possibly-`undefined` value. -/
def truthy : Option Json → Bool
  | none => false
  | some Json.null => false
  | some (Json.bool b) => b
  | some (Json.num n) => !(n == 0)
  | some (Json.str s) => !(s == "")
  | some (Json.arr _) => true
  | some (Json.obj _) => true
  | some (Json.bytes _) => true

/-- `typeof v === 'string' || typeof v === 'number'` for a present value. -/
def isStringOrNumber : Option Json → Bool
  | some (Json.str _) => true
  | some (Json.num _) => true
  | _ => false

/-- `typeof v === 'string'` for a present value. -/
def isStringV : Option Json → Bool
  | some (Json.str _) => true
  | _ => false

/-- String coercion used by template literals such as
`` `Tool not found: ${params.name}` ``.  Array and buffer coercion is
approximated; no claim depends on it. -/
def jsToString : Json → String
  | Json.null => "null"
  | Json.bool true => "true"
  | Json.bool false => "false"
  | Json.num n => toString n
  | Json.str s => s
  | Json.arr _ => ""
  | Json.obj _ => "[object Object]"
  | Json.bytes _ => ""

/-- A JavaScript exception value; the dispatcher only ever reads its
`message` property. -/
structure JsError where
  message : String
deriving Repr, DecidableEq

/-- Escapes a string for `JSON.stringify`. -/
def jsonQuote (s : String) : String :=
  "\"" ++ String.mk (s.data.flatMap (fun c =>
    if c = '"' then ['\\', '"'] else if c = '\\' then ['\\', '\\'] else [c])) ++ "\""

mutual

/-- Models `JSON.stringify` for the default branch of `formatResult`. -/
def jsonStringify : Json → String
  | Json.null => "null"
  | Json.bool true => "true"
  | Json.bool false => "false"
  | Json.num n => toString n
  | Json.str s => jsonQuote s
  | Json.arr xs => "[" ++ jsonStringifyList xs ++ "]"
  | Json.obj fs => "\x7b" ++ jsonStringifyFields fs ++ "\x7d"
  | Json.bytes ds =>
      "\x7b\"type\":\"Buffer\",\"data\":[" ++ String.intercalate "," (ds.map toString) ++ "]\x7d"

def jsonStringifyList : List Json → String
  | [] => ""
  | [x] => jsonStringify x
  | x :: y :: rest => jsonStringify x ++ "," ++ jsonStringifyList (y :: rest)

def jsonStringifyFields : List (String × Json) → String
  | [] => ""
  | [(k, v)] => jsonQuote k ++ ":" ++ jsonStringify v
  | (k, v) :: p :: rest =>
      jsonQuote k ++ ":" ++ jsonStringify v ++ "," ++ jsonStringifyFields (p :: rest)

end

/-- A registered tool: description, validated schema, and the raw
handler passed to `addTool`, as an oracle from the argument object to
the settled outcome (a timeout of the `Promise.race` surfaces as an
`Except.error`). -/
structure ToolEntry where
  description : String
  parameters : Json
  execute : Json → Except JsError Json

/-- The `tools` map of `MCPServer`; `Map.set` keeps keys unique. -/
abbrev Registry : Type := List (String × ToolEntry)

def lookupTool (tools : Registry) (name : String) : Option ToolEntry :=
  (tools.find? (fun p => p.1 == name)).map (fun p => p.2)

/-- `validateSchema` (index.ts lines 187-193):
`schema && typeof schema === 'object' && !Array.isArray(schema)`.
A Node `Buffer` is a non-array object, hence accepted. -/
def validateSchema (schema : Json) : Except JsError Json :=
  match schema with
  | Json.obj fields => Except.ok (Json.obj fields)
  | Json.bytes data => Except.ok (Json.bytes data)
  | _ => Except.error ⟨"Invalid schema format"⟩

/-- `validateParameters` (index.ts lines 458-470): when both schema and
params are truthy objects, every own key of the schema must be present
in params.  (Intrinsic properties of arrays are not modelled.) -/
def validateParameters (params schema : Json) : Except JsError Unit :=
  match schema, params with
  | Json.obj skeys, Json.obj pfields =>
    (match skeys.find? (fun kv => (lookupField pfields kv.1).isNone) with
     | some kv => Except.error ⟨"Missing required parameter: " ++ kv.1⟩
     | none => Except.ok ())
  | Json.obj (kv :: _), Json.arr _ => Except.error ⟨"Missing required parameter: " ++ kv.1⟩
  | Json.obj (kv :: _), Json.bytes _ => Except.error ⟨"Missing required parameter: " ++ kv.1⟩
  | _, _ => Except.ok ()

/-- `formatError` (index.ts lines 500-509): the thrown object whose
`message` the dispatch boundary reads (its `code: -32000` and `data`
fields are never consulted by the catch in `handleToolCall`). -/
def formatError (e : JsError) (toolName : String) : JsError :=
  ⟨"Tool " ++ toolName ++ " failed: " ++ e.message⟩

/-- `formatResult` (index.ts lines 473-497). -/
def formatResult (result : Json) : Json :=
  match result with
  | Json.obj fields =>
    (match lookupField fields "buffer" with
     | some (Json.bytes data) =>
         Json.obj [("contentType", Json.str "image/png"),
                   ("content", Json.str (String.mk (encodeB64 data)))]
     | _ =>
       match lookupField fields "text" with
       | some (Json.str s) =>
           Json.obj [("contentType", Json.str "text/plain"), ("content", Json.str s)]
       | _ =>
           Json.obj [("contentType", Json.str "application/json"),
                     ("content", Json.str (jsonStringify result))])
  | _ =>
      Json.obj [("contentType", Json.str "application/json"),
                ("content", Json.str (jsonStringify result))]

/-- The wrapped execution stored by `addTool` (`wrapToolExecution`,
index.ts lines 196-216), evaluated at dispatch time: look the schema up
in the current registry (`this.tools.get(toolName)!`), validate the
parameters, run the raw handler, format result or rethrow the formatted
error.  The second component records whether the raw handler was
invoked. -/
def runToolExecute (tools : Registry) (name : String) (params : Json) :
    Except JsError Json × Bool :=
  match lookupTool tools name with
  | none => (Except.error ⟨"Cannot read properties of undefined"⟩, false)
  | some entry =>
    match validateParameters params entry.parameters with
    | Except.error e => (Except.error (formatError e name), false)
    | Except.ok _ =>
      match entry.execute params with
      | Except.ok v => (Except.ok (formatResult v), true)
      | Except.error e => (Except.error (formatError e name), true)

/-- Server capability descriptor (`getServerCapabilities`, index.ts
lines 290-310). -/
structure Capabilities where
  tools : List (String × String × Json)
  protocolVersion : String
  supportedVersions : List String
  maxConnections : Nat
  maxMessageSize : Nat
  timeout : Nat

def getServerCapabilities (tools : Registry) : Capabilities :=
  ⟨tools.map (fun p => (p.1, p.2.description, p.2.parameters)),
   "2024-11-05", ["2024-11-05", "2024-06-13"], 100, 1048576, 30000⟩

/-- One SSE frame written by `sendProtocolMessage`/`sendError`. -/
inductive Frame where
  | errorFrame (id : Option Json) (code : Int) (message : String)
  | initResult (id : Option Json) (protocolVersion : Json) (capabilities : Capabilities)
  | toolResult (id : Option Json) (result : Json)
  | pingResult (id : Option Json)

def sendError (id : Option Json) (code : Int) (message : String) : Frame :=
  Frame.errorFrame id code message

/-- What one incoming message produced: the frames written to the
connection and the names of the tools whose raw handler ran. -/
structure DispatchOut where
  frames : List Frame
  handlerCalls : List String

/-- The strict-equality check `message.jsonrpc === '2.0'`: true exactly
for a string value with contents `2.0`. -/
def isJsonrpc20 (j : Json) : Bool :=
  match objGet j "jsonrpc" with
  | some (Json.str s) => s == "2.0"
  | _ => false

/-- `supportedVersions.includes(clientVersion)`: strict equality against
the two supported literals. -/
def isSupportedVersionV : Option Json → Bool
  | some (Json.str s) => s == "2024-11-05" || s == "2024-06-13"
  | _ => false

/-- `parseAndValidateMessage` (index.ts lines 349-372) on the outcome of
`JSON.parse` (`none` = the parse threw `Invalid JSON format`).  Property
access on `null` throws a `TypeError`, caught by the same boundary. -/
def parseAndValidateMessage (parsed : Option Json) : Except JsError Json :=
  match parsed with
  | none => Except.error ⟨"Invalid JSON format"⟩
  | some msg =>
    match msg with
    | Json.null => Except.error ⟨"Cannot read properties of null"⟩
    | _ =>
      if isJsonrpc20 msg = false then
        Except.error ⟨"Invalid JSON-RPC version"⟩
      else if truthy (objGet msg "id") && !(isStringOrNumber (objGet msg "id")) then
        Except.error ⟨"Invalid message ID"⟩
      else if truthy (objGet msg "method") && !(isStringV (objGet msg "method")) then
        Except.error ⟨"Invalid method name"⟩
      else
        Except.ok msg

/-- Optional chaining `params?.protocolVersion`: `undefined` when
`params` is null or undefined. -/
def protocolVersionOf (msg : Json) : Option Json :=
  match objGet msg "params" with
  | none => none
  | some Json.null => none
  | some p => objGet p "protocolVersion"

/-- `handleInitialize` (index.ts lines 375-399):
`params?.protocolVersion || '2024-06-13'` checked against the two
supported literals with strict equality. -/
def handleInitialize (tools : Registry) (msg : Json) : DispatchOut :=
  let id := objGet msg "id"
  let pv : Option Json := protocolVersionOf msg
  let clientVersion : Json := if truthy pv then pv.getD Json.null else Json.str "2024-06-13"
  if isSupportedVersionV (some clientVersion) then
    ⟨[Frame.initResult id clientVersion (getServerCapabilities tools)], []⟩
  else
    ⟨[sendError id (-32002) ("Unsupported protocol version: " ++ jsToString clientVersion)], []⟩

/-- `params.arguments || {}`. -/
def toolCallArgs (p : Json) : Json :=
  if truthy (objGet p "arguments") then (objGet p "arguments").getD Json.null
  else Json.obj []

/-- `handleToolCall` (index.ts lines 402-426).  `this.tools.get` with a
non-string key finds nothing since `Map.set` only ever stores string
keys. -/
def handleToolCall (tools : Registry) (msg : Json) : DispatchOut :=
  let id := objGet msg "id"
  match objGet msg "params" with
  | none => ⟨[sendError id (-32602) "Invalid params: tool name required"], []⟩
  | some p =>
    if truthy (some p) = false then
      ⟨[sendError id (-32602) "Invalid params: tool name required"], []⟩
    else if truthy (objGet p "name") = false then
      ⟨[sendError id (-32602) "Invalid params: tool name required"], []⟩
    else
      let lookedUp : Option (String × ToolEntry) :=
        match objGet p "name" with
        | some (Json.str s) => (lookupTool tools s).map (fun t => (s, t))
        | _ => none
      match lookedUp with
      | none =>
          ⟨[sendError id (-32601)
              ("Tool not found: " ++ jsToString ((objGet p "name").getD Json.null))], []⟩
      | some (s, _) =>
        match runToolExecute tools s (toolCallArgs p) with
        | (Except.ok r, invoked) =>
            ⟨[Frame.toolResult id r], if invoked then [s] else []⟩
        | (Except.error e, invoked) =>
            ⟨[sendError id (-32000) ("Tool execution failed: " ++ e.message)],
             if invoked then [s] else []⟩

/-- `handlePing` (index.ts lines 429-439). -/
def handlePing (msg : Json) : DispatchOut :=
  ⟨[Frame.pingResult (objGet msg "id")], []⟩

/-- The `switch (message.method)` of `handleClientData`. -/
def dispatchMessage (tools : Registry) (msg : Json) : DispatchOut :=
  match objGet msg "method" with
  | some (Json.str "initialize") => handleInitialize tools msg
  | some (Json.str "tools/call") => handleToolCall tools msg
  | some (Json.str "ping") => handlePing msg
  | _ => ⟨[sendError (objGet msg "id") (-32601) "Method not found"], []⟩

/-- `handleClientData` (index.ts lines 325-346): the try/catch boundary
turning every validation throw into a single `-32700` frame with an
absent id.  Totality of this function is the no-crash guarantee. -/
def handleClientData (tools : Registry) (parsed : Option Json) : DispatchOut :=
  match parseAndValidateMessage parsed with
  | Except.error e => ⟨[sendError none (-32700) ("Parse error: " ++ e.message)], []⟩
  | Except.ok msg => dispatchMessage tools msg

/-- `addTool`'s name pattern `^[a-zA-Z0-9_\-\/]+$` (index.ts line 173). -/
def validToolName (name : String) : Bool :=
  !(name == "") && name.data.all (fun c => c.isAlphanum || c == '_' || c == '-' || c == '/')

/-- `Map.set`: replace the entry of an existing key in place, otherwise
append. -/
def mapSet (tools : Registry) (name : String) (entry : ToolEntry) : Registry :=
  if tools.any (fun p => p.1 == name) then
    tools.map (fun p => if p.1 == name then (name, entry) else p)
  else
    tools ++ [(name, entry)]

/-- `addTool` (index.ts lines 172-184): reject names failing the pattern,
validate the schema, then `Map.set` the (wrapped) tool, silently
replacing an existing entry of the same name. -/
def addTool (tools : Registry) (name description : String) (parameters : Json)
    (execute : Json → Except JsError Json) : Except JsError Registry :=
  if validToolName name = false then
    Except.error
      ⟨"Tool name must contain only alphanumeric characters, underscores, hyphens, and slashes"⟩
  else
    match validateSchema parameters with
    | Except.error e => Except.error e
    | Except.ok schema => Except.ok (mapSet tools name ⟨description, schema, execute⟩)

/-! ## SSE connection bookkeeping (src/index.ts)

A labelled transition system over the `MCPServer` connection state:
`handleSSEConnection` (lines 219-282), the heartbeat sweep
(`setupHeartbeat`, lines 144-169), the per-request `close` listener, and
`destroy` (lines 549-560).  `closedIds` records one entry per
`res.end()` call the server performs; `closeEvtIds` records which
sockets have already fired their `close` event (Node fires it at most
once per request).  Wall-clock instants are milliseconds. -/

structure ConnState where
  clients : List (String × Nat)
  connectionCount : Int
  maxConnections : Nat
  everConnected : List String
  closedIds : List String
  rejectedIds : List String
  closeEvtIds : List String
deriving Repr, DecidableEq

inductive ConnEvent where
  | connect (id : String) (now : Nat)
  | activity (id : String) (now : Nat)
  | closeEvt (id : String)
  | sweep (now : Nat)
  | destroy
deriving Repr, DecidableEq

/-- One transition of the connection bookkeeping.

* `connect`: the cap check `connectionCount >= maxConnections` rejects
  with a 503 body, otherwise the client is added and counted;
* `activity`: a `data` event refreshes `lastActivity`;
* `closeEvt`: the request's `close` listener deletes the map entry (a
  no-op when absent) and decrements `connectionCount` unconditionally;
* `sweep`: the heartbeat removes, ends and un-counts every client
  inactive for more than 30000 ms;
* `destroy`: ends and removes every remaining client (the count is not
  touched by the source). -/
def connStep (s : ConnState) : ConnEvent → ConnState
  | ConnEvent.connect id now =>
    if (s.maxConnections : Int) ≤ s.connectionCount then
      { s with rejectedIds := s.rejectedIds ++ [id] }
    else
      { s with clients := s.clients ++ [(id, now)],
               connectionCount := s.connectionCount + 1,
               everConnected := s.everConnected ++ [id] }
  | ConnEvent.activity id now =>
      { s with clients := s.clients.map (fun c => if c.1 == id then (id, now) else c) }
  | ConnEvent.closeEvt id =>
      { s with clients := s.clients.filter (fun c => !(c.1 == id)),
               connectionCount := s.connectionCount - 1,
               closeEvtIds := s.closeEvtIds ++ [id] }
  | ConnEvent.sweep now =>
      { s with clients := s.clients.filter (fun c => now - c.2 ≤ 30000),
               connectionCount :=
                 s.connectionCount - (s.clients.filter (fun c => 30000 < now - c.2)).length,
               closedIds := s.closedIds ++ (s.clients.filter (fun c => 30000 < now - c.2)).map Prod.fst }
  | ConnEvent.destroy =>
      { s with clients := [], closedIds := s.closedIds ++ s.clients.map Prod.fst }

/-- The wall-clock instant an event carries, if any. -/
def eventTime : ConnEvent → Option Nat
  | ConnEvent.connect _ now => some now
  | ConnEvent.activity _ now => some now
  | ConnEvent.sweep now => some now
  | _ => none

/-- Environment guards making a trace physically possible: fresh client
ids (`generateClientId` never repeats), `close` fired at most once per
accepted request, and a monotone clock. -/
def eventOk (s : ConnState) (t : Nat) : ConnEvent → Prop
  | ConnEvent.connect id now => id ∉ s.everConnected ∧ id ∉ s.rejectedIds ∧ t ≤ now
  | ConnEvent.activity _ now => t ≤ now
  | ConnEvent.closeEvt id => id ∈ s.everConnected ∧ id ∉ s.closeEvtIds
  | ConnEvent.sweep now => t ≤ now
  | ConnEvent.destroy => True

instance eventOkDecidable (s : ConnState) (t : Nat) (e : ConnEvent) :
    Decidable (eventOk s t e) := by
  unfold eventOk
  cases e <;> infer_instance

/-- The clock after an event. -/
def eventClock (t : Nat) (e : ConnEvent) : Nat :=
  (eventTime e).getD t

/-- The initial server state with connection cap `cap`
(`maxConnections = 100` in the source; the claim calls it
configurable). -/
def initConnState (cap : Nat) : ConnState :=
  ⟨[], 0, cap, [], [], [], []⟩

/-- Reachability of a connection-bookkeeping state (paired with the
current clock) from a fresh server. -/
inductive Reach : ConnState → Nat → Prop where
  | init (cap : Nat) : Reach (initConnState cap) 0
  | step {s : ConnState} {t : Nat} (e : ConnEvent) :
      Reach s t → eventOk s t e → Reach (connStep s e) (eventClock t e)

/-! ## Derived predicates and concrete fixtures -/

/-- An `id` field that is present, truthy, and neither string nor number. -/
def badTruthyId (j : Json) : Bool :=
  truthy (objGet j "id") && !(isStringOrNumber (objGet j "id"))

/-- A `method` field that is present, truthy, and not a string. -/
def badTruthyMethod (j : Json) : Bool :=
  truthy (objGet j "method") && !(isStringV (objGet j "method"))

/-- Frames that carry the server capability descriptor. -/
def carriesCapabilities : Frame → Bool
  | Frame.initResult _ _ _ => true
  | _ => false

/-- Number of error frames with the given code among `frames`. -/
def countErrorFrames (frames : List Frame) (code : Int) : Nat :=
  frames.countP (fun f =>
    match f with
    | Frame.errorFrame _ c _ => c == code
    | _ => false)

/-- Bookkeeping invariant of the connection state maintained by every
transition: client ids are distinct and were handed out by `connect`,
and each stream has been ended at most once, never while still in the
active set. -/
def ConnInv (s : ConnState) : Prop :=
  (s.clients.map Prod.fst).Nodup
  ∧ (∀ id ∈ s.clients.map Prod.fst, id ∈ s.everConnected)
  ∧ (∀ id, s.closedIds.count id ≤ 1)
  ∧ (∀ id ∈ s.closedIds, id ∉ s.clients.map Prod.fst)
  ∧ (∀ id ∈ s.closedIds, id ∈ s.everConnected)

/-- A well-formed frame whose `id` is present but `null`: JavaScript
truthiness skips the id type check, so validation accepts it. -/
def msgIdNullPing : Json :=
  Json.obj [("jsonrpc", Json.str "2.0"), ("id", Json.null), ("method", Json.str "ping")]

/-- A `tools/call` frame naming the empty-string tool. -/
def msgEmptyToolName : Json :=
  Json.obj [("jsonrpc", Json.str "2.0"), ("id", Json.num 1),
            ("method", Json.str "tools/call"),
            ("params", Json.obj [("name", Json.str "")])]

/-- An `initialize` frame citing the empty-string protocol version. -/
def msgEmptyProtocolVersion : Json :=
  Json.obj [("jsonrpc", Json.str "2.0"), ("id", Json.num 1),
            ("method", Json.str "initialize"),
            ("params", Json.obj [("protocolVersion", Json.str "")])]

/-- An `initialize` frame citing protocol version `7` (a number). -/
def msgInitV7 : Json :=
  Json.obj [("jsonrpc", Json.str "2.0"), ("id", Json.num 1),
            ("method", Json.str "initialize"),
            ("params", Json.obj [("protocolVersion", Json.num 7)])]

/-- A registered tool whose handler always throws `boom`. -/
def boomTool : ToolEntry :=
  ⟨"always fails", Json.obj [], fun _ => Except.error ⟨"boom"⟩⟩

def demoRegistry : Registry := [("demo", boomTool)]

/-- A `tools/call` frame invoking `demo`. -/
def msgCallDemo : Json :=
  Json.obj [("jsonrpc", Json.str "2.0"), ("id", Json.num 1),
            ("method", Json.str "tools/call"),
            ("params", Json.obj [("name", Json.str "demo")])]

/-- A two-key pool selecting the first key. -/
def demoPool : ApiKeyState := ⟨["A", "B"], 0⟩

/-- A call oracle that is rejected with HTTP 401 on the first invocation
and succeeds on the second. -/
def demoCall : Nat → String → Except ApiError Nat :=
  fun attempt _key => if attempt = 0 then Except.error ⟨"unauthorized", some 401⟩ else Except.ok 7

/-- State reached (cap 1) after: accept `a`; heartbeat-remove `a` at
31 s; `a`'s socket close event; accept `b`. -/
def overCapMid : ConnState :=
  ⟨[("b", 31000)], 0, 1, ["a", "b"], ["a"], [], ["a"]⟩

/-- State reached from `overCapMid` by accepting `c` while the active set
is already at the cap: two active connections against a cap of one. -/
def overCapFinal : ConnState :=
  ⟨[("b", 31000), ("c", 31000)], 1, 1, ["a", "b", "c"], ["a"], [], ["a"]⟩

/-! ## Properties of the key pool (C2, C10) -/

theorem rotateState_of_two_le (keys : List String) (i : Nat) (h : 2 ≤ keys.length) :
    rotateState ⟨keys, i⟩ = ⟨keys, (i + 1) % keys.length⟩ := by
  have h1 : ¬ keys.length ≤ 1 := by omega
  simp [rotateState, rotateApiKey, h1]

theorem rotateState_of_le_one (s : ApiKeyState) (h : s.keys.length ≤ 1) :
    rotateState s = s := by
  by_cases hz : s.keys.length = 0
  · simp [rotateState, rotateApiKey, getCurrentApiKey, h, hz, Except.map]
  · simp [rotateState, rotateApiKey, getCurrentApiKey, h, hz, Except.map]

theorem rotateState_iterate (keys : List String) (h : 2 ≤ keys.length) (n : Nat) :
    rotateState^[n] ⟨keys, 0⟩ = ⟨keys, n % keys.length⟩ := by
  induction n with
  | zero => simp
  | succ n ih =>
    rw [Function.iterate_succ_apply', ih, rotateState_of_two_le keys _ h]
    have h1 : 1 % keys.length = 1 := Nat.mod_eq_of_lt (by omega)
    rw [Nat.add_mod n 1 keys.length, h1]

/-- C2: starting from index 0, N rotations of a pool of size ≥ 2 leave
the current index at `N mod pool.length` (hence the rotation cycle
visits every key before repeating); rotation is the identity on pools of
size ≤ 1 (on the empty pool `rotateApiKey` throws without touching the
index); and rotation preserves the invariant `index < keys.length`. -/
theorem rotateApiKey_spec (keys : List String) (N : Nat) (s : ApiKeyState) :
    (2 ≤ keys.length →
      (rotateState^[N] ⟨keys, 0⟩).currentApiKeyIndex = N % keys.length)
    ∧ (s.keys.length ≤ 1 → rotateState s = s)
    ∧ (s.currentApiKeyIndex < s.keys.length →
        (rotateState s).currentApiKeyIndex < s.keys.length) := by
  refine ⟨fun h => by rw [rotateState_iterate keys h N], fun h => rotateState_of_le_one s h, ?_⟩
  intro hlt
  by_cases h1 : s.keys.length ≤ 1
  · rw [rotateState_of_le_one s h1]; exact hlt
  · have h2 : 2 ≤ s.keys.length := by omega
    have hrot : rotateState s = ⟨s.keys, (s.currentApiKeyIndex + 1) % s.keys.length⟩ := by
      obtain ⟨ks, i⟩ := s
      exact rotateState_of_two_le ks i h2
    rw [hrot]
    exact Nat.mod_lt _ (by omega)

theorem rotateApiKey_spec_witness :
    (rotateState^[3] ⟨["A", "B"], 0⟩).currentApiKeyIndex = 3 % 2
    ∧ rotateState ⟨["A"], 0⟩ = ⟨["A"], 0⟩ :=
  ⟨by simpa using (rotateApiKey_spec ["A", "B"] 3 ⟨["A"], 0⟩).1 (by decide),
   (rotateApiKey_spec ["A", "B"] 3 ⟨["A"], 0⟩).2.1 (by decide)⟩

theorem fallbackLoop_empty {T : Type} (call : Nat → String → Except ApiError T)
    (m : Nat) (r : Nat) (s : ApiKeyState) (h : s.keys = []) (le : Option ApiError) :
    (fallbackLoop call m r s le).result
      = (if r = 0 then Except.error (le.getD ⟨"All API key attempts failed", none⟩)
         else Except.error ⟨"No Stability AI API keys configured", none⟩)
    ∧ ∀ i k res, FbStep.call i k res ∉ (fallbackLoop call m r s le).steps := by
  induction r generalizing le with
  | zero => simp [fallbackLoop]
  | succ r ih =>
    have hz : s.keys.length = 0 := by simp [h]
    have hkey : getCurrentApiKey s
        = Except.error ⟨"No Stability AI API keys configured", none⟩ := by
      simp [getCurrentApiKey, hz]
    constructor
    · show (fallbackLoop call m (r + 1) s le).result = _
      simp only [fallbackLoop, hkey]
      rcases Nat.eq_zero_or_pos r with hr | hr
      · subst hr; simp [fallbackLoop]
      · have := (ih (some ⟨"No Stability AI API keys configured", none⟩)).1
        simp only [this]
        simp [Nat.pos_iff_ne_zero.mp hr]
    · intro i k res hmem
      simp only [fallbackLoop, hkey, List.mem_cons, List.mem_append] at hmem
      rcases hmem with h1 | h1
      · exact FbStep.noConfusion h1
      · rcases h1 with h1 | h1
        · rcases Nat.eq_zero_or_pos r with hr | hr <;> subst_eqs <;> simp_all
        · exact (ih (some ⟨"No Stability AI API keys configured", none⟩)).2 i k res h1

/-- C10: with an empty key pool, `executeWithApiFallback` never invokes
the call function and always throws: the generic
`All API key attempts failed` error under the default budget (which is
then `API_KEYS.length = 0`), and the
`No Stability AI API keys configured` error from `getCurrentApiKey`
(observed as the last recorded error after the budget is exhausted)
under any explicit positive budget. -/
theorem executeWithApiFallback_emptyPool {T : Type}
    (call : Nat → String → Except ApiError T) (s : ApiKeyState)
    (h : s.keys = []) (n : Nat) (hn : 1 ≤ n) :
    ((executeWithApiFallbackDefault call s).result
        = Except.error ⟨"All API key attempts failed", none⟩
      ∧ (executeWithApiFallbackDefault call s).steps = [])
    ∧ ((executeWithApiFallback call n s).result
        = Except.error ⟨"No Stability AI API keys configured", none⟩
      ∧ ∀ i k res, FbStep.call i k res ∉ (executeWithApiFallback call n s).steps) := by
  have hz : s.keys.length = 0 := by simp [h]
  refine ⟨⟨?_, ?_⟩, ?_, ?_⟩
  · simp [executeWithApiFallbackDefault, executeWithApiFallback, hz, fallbackLoop]
  · simp [executeWithApiFallbackDefault, executeWithApiFallback, hz, fallbackLoop]
  · have := (fallbackLoop_empty call n n s h none).1
    simpa [executeWithApiFallback, Nat.pos_iff_ne_zero.mp hn] using this
  · exact (fallbackLoop_empty call n n s h none).2

theorem executeWithApiFallback_emptyPool_witness :
    ((executeWithApiFallbackDefault demoCall ⟨[], 0⟩).result
        = Except.error ⟨"All API key attempts failed", none⟩
      ∧ (executeWithApiFallbackDefault demoCall ⟨[], 0⟩).steps = [])
    ∧ ((executeWithApiFallback demoCall 2 ⟨[], 0⟩).result
        = Except.error ⟨"No Stability AI API keys configured", none⟩
      ∧ ∀ i k res, FbStep.call i k res ∉ (executeWithApiFallback demoCall 2 ⟨[], 0⟩).steps) :=
  executeWithApiFallback_emptyPool demoCall ⟨[], 0⟩ rfl 2 (by decide)

/-! ## Properties of the base64 helpers (C9) -/

theorem charSextet_sextetChar : ∀ n, n < 64 → charSextet (sextetChar n) = some n := by
  decide

theorem sextetChar_ne_pad : ∀ n, n < 64 → sextetChar n ≠ '=' := by
  decide

theorem sextetChar_ne_colon (n : Nat) : sextetChar n ≠ ':' := by
  by_cases h : n < 64
  · exact (by decide : ∀ m, m < 64 → sextetChar m ≠ ':') n h
  · have hlen : base64Chars.length = 64 := by decide
    unfold sextetChar
    rw [List.getD_eq_default _ _ (by omega)]
    decide

theorem encodeB64_ne_colon (bs : List Nat) : ∀ ch ∈ encodeB64 bs, ch ≠ ':' := by
  induction bs using encodeB64.induct with
  | case1 => simp [encodeB64]
  | case2 a =>
    intro ch hch
    simp only [encodeB64, List.mem_cons, List.not_mem_nil, or_false] at hch
    rcases hch with rfl | rfl | rfl | rfl
    · exact sextetChar_ne_colon _
    · exact sextetChar_ne_colon _
    · decide
    · decide
  | case3 a b =>
    intro ch hch
    simp only [encodeB64, List.mem_cons, List.not_mem_nil, or_false] at hch
    rcases hch with rfl | rfl | rfl | rfl
    · exact sextetChar_ne_colon _
    · exact sextetChar_ne_colon _
    · exact sextetChar_ne_colon _
    · decide
  | case4 a b c rest ih =>
    intro ch hch
    simp only [encodeB64, List.mem_cons] at hch
    rcases hch with rfl | rfl | rfl | rfl | hmem
    · exact sextetChar_ne_colon _
    · exact sextetChar_ne_colon _
    · exact sextetChar_ne_colon _
    · exact sextetChar_ne_colon _
    · exact ih ch hmem

theorem dropPrefixCh_append (p s : List Char) : dropPrefixCh p (p ++ s) = some s := by
  induction p with
  | nil => rfl
  | cons c cs ih => simp [dropPrefixCh, ih]

theorem dropPrefixCh_dataImage_none (l : List Char) (h : ∀ ch ∈ l, ch ≠ ':') :
    dropPrefixCh ("data:image/".data) l = none := by
  show dropPrefixCh ('d' :: 'a' :: 't' :: 'a' :: ':' :: 'i' :: 'm' :: 'a' :: 'g' :: 'e' :: '/' :: []) l = none
  rcases l with _ | ⟨c0, _ | ⟨c1, _ | ⟨c2, _ | ⟨c3, _ | ⟨c4, rest⟩⟩⟩⟩⟩
  · rfl
  · simp only [dropPrefixCh]; split_ifs <;> rfl
  · simp only [dropPrefixCh]; split_ifs <;> rfl
  · simp only [dropPrefixCh]; split_ifs <;> rfl
  · simp only [dropPrefixCh]; split_ifs <;> rfl
  · simp only [dropPrefixCh]
    split_ifs with h0 h1 h2 h3 h4
    · exact absurd h4 (h c4 (by simp))
    all_goals rfl

theorem takeWhile_lower_split (l1 l2 : List Char) (h1 : ∀ c ∈ l1, c.isLower = true)
    (h2 : ∀ c, l2.head? = some c → c.isLower = false) :
    (l1 ++ l2).takeWhile Char.isLower = l1 ∧ (l1 ++ l2).dropWhile Char.isLower = l2 := by
  induction l1 with
  | nil =>
    simp only [List.nil_append]
    cases l2 with
    | nil => simp
    | cons c tl =>
      have hc := h2 c rfl
      simp [List.takeWhile_cons, List.dropWhile_cons, hc]
  | cons c cs ih =>
    have hc := h1 c (by simp)
    have ihres := ih (fun d hd => h1 d (by simp [hd]))
    simp [List.takeWhile_cons, List.dropWhile_cons, hc, ihres.1, ihres.2]

theorem stripDataUri_bare (bs : List Nat) : stripDataUri (encodeB64 bs) = encodeB64 bs := by
  unfold stripDataUri
  rw [dropPrefixCh_dataImage_none _ (encodeB64_ne_colon bs)]

theorem stripDataUri_dataUri (suffix enc : List Char)
    (hs : suffix ≠ []) (hl : ∀ c ∈ suffix, c.isLower = true) :
    stripDataUri ("data:".data ++ ("image/".data ++ suffix) ++ ";base64,".data ++ enc)
      = enc := by
  rcases suffix with _ | ⟨c, cs⟩
  · exact absurd rfl hs
  · have e1 : ("data:".data ++ "image/".data : List Char) = "data:image/".data := rfl
    have hre : "data:".data ++ ("image/".data ++ (c :: cs)) ++ ";base64,".data ++ enc
        = "data:image/".data ++ ((c :: cs) ++ (";base64,".data ++ enc)) := by
      simp only [List.append_assoc]
      rw [← List.append_assoc ("data:".data) ("image/".data), e1]
    rw [hre]
    unfold stripDataUri
    simp only [dropPrefixCh_append]
    have hsplit := takeWhile_lower_split (c :: cs) (";base64,".data ++ enc) hl
      (by
        intro d hd
        have hsemi : ((";base64,".data ++ enc : List Char)).head? = some ';' := rfl
        rw [hsemi] at hd
        cases hd
        decide)
    simp only [hsplit.1, hsplit.2, dropPrefixCh_append]

theorem decodeB64_encodeB64 (bs : List Nat) (h : ∀ x ∈ bs, x < 256) :
    decodeB64 (encodeB64 bs) = bs := by
  induction bs using encodeB64.induct with
  | case1 => rfl
  | case2 a =>
    have ha : a < 256 := h a (by simp)
    have h1 := charSextet_sextetChar (a / 4) (by omega)
    have h2 := charSextet_sextetChar (a % 4 * 16) (by omega)
    simp only [encodeB64, decodeB64, h1, h2, ite_true]
    simp only [List.cons.injEq, and_true]
    omega
  | case3 a b =>
    have ha : a < 256 := h a (by simp)
    have hb : b < 256 := h b (by simp)
    have h1 := charSextet_sextetChar (a / 4) (by omega)
    have h2 := charSextet_sextetChar (a % 4 * 16 + b / 16) (by omega)
    have h3 := charSextet_sextetChar (b % 16 * 4) (by omega)
    have hne := sextetChar_ne_pad (b % 16 * 4) (by omega)
    simp only [encodeB64, decodeB64, h1, h2, h3, if_neg hne, ite_true]
    simp only [List.cons.injEq, and_true]
    omega
  | case4 a b c rest ih =>
    have ha : a < 256 := h a (by simp)
    have hb : b < 256 := h b (by simp)
    have hc : c < 256 := h c (by simp)
    have h1 := charSextet_sextetChar (a / 4) (by omega)
    have h2 := charSextet_sextetChar (a % 4 * 16 + b / 16) (by omega)
    have h3 := charSextet_sextetChar (b % 16 * 4 + c / 64) (by omega)
    have h4 := charSextet_sextetChar (c % 64) (by omega)
    have hne2 := sextetChar_ne_pad (b % 16 * 4 + c / 64) (by omega)
    have hne3 := sextetChar_ne_pad (c % 64) (by omega)
    have ihres := ih (fun x hx => h x (by simp [hx]))
    simp only [encodeB64, decodeB64, h1, h2, h3, h4, if_neg hne2, if_neg hne3, ihres]
    simp only [List.cons.injEq, and_true]
    omega

/-- C9: for every byte buffer and every MIME type `image/<lowercase>`
(the default `image/png` included), `base64ToBuffer` inverts
`bufferToBase64`; and feeding `base64ToBuffer` the bare base64 text
(without the data-URI header) recovers the same buffer, since the
header-stripping regex leaves headerless input untouched. -/
theorem base64_dataUri_roundtrip (b : List Nat) (suffix : List Char)
    (hb : ∀ x ∈ b, x < 256) (hs : suffix ≠ []) (hl : ∀ c ∈ suffix, c.isLower = true) :
    base64ToBuffer (bufferToBase64 b ("image/".data ++ suffix)) = b
    ∧ base64ToBuffer (encodeB64 b) = b := by
  constructor
  · unfold base64ToBuffer bufferToBase64
    rw [stripDataUri_dataUri suffix (encodeB64 b) hs hl]
    exact decodeB64_encodeB64 b hb
  · unfold base64ToBuffer
    rw [stripDataUri_bare]
    exact decodeB64_encodeB64 b hb

theorem base64_dataUri_roundtrip_witness :
    base64ToBuffer (bufferToBase64 [1, 2, 3] ("image/".data ++ "png".data)) = [1, 2, 3]
    ∧ base64ToBuffer (encodeB64 [1, 2, 3]) = [1, 2, 3] :=
  base64_dataUri_roundtrip [1, 2, 3] "png".data (by decide) (by decide) (by decide)

/-! ## Properties of tool registration (C8) -/

theorem validToolName_false_iff (name : String) :
    validToolName name = false
      ↔ (name = "" ∨ ∃ c ∈ name.data, (c.isAlphanum || c == '_' || c == '-' || c == '/') = false) := by
  unfold validToolName
  rcases he : name == "" with _ | _
  · simp only [he, Bool.not_false, Bool.true_and]
    constructor
    · intro h
      rcases List.all_eq_false.mp h with ⟨c, hc, hcf⟩
      exact Or.inr ⟨c, hc, by simpa using hcf⟩
    · intro h
      rcases h with h1 | ⟨c, hc, hcf⟩
      · exact absurd (beq_iff_eq.mpr h1) (by simp [he])
      · exact List.all_eq_false.mpr ⟨c, hc, by simp [hcf]⟩
  · have hne : name = "" := beq_iff_eq.mp he
    simp [he, hne]

theorem keys_map_replace (tools : Registry) (name : String) (entry : ToolEntry) :
    (tools.map (fun p => if p.1 == name then (name, entry) else p)).map Prod.fst
      = tools.map Prod.fst := by
  induction tools with
  | nil => rfl
  | cons kv rest ih =>
    by_cases hk : kv.1 == name
    · simp only [List.map_cons, if_pos hk, ih, List.cons.injEq, and_true]
      exact (beq_iff_eq.mp hk).symm
    · simp only [List.map_cons, if_neg hk, ih]

theorem find?_map_replace (tools : Registry) (name : String) (entry : ToolEntry)
    (h : ∃ p ∈ tools, p.1 = name) :
    (tools.map (fun p => if p.1 == name then (name, entry) else p)).find?
        (fun p => p.1 == name) = some (name, entry) := by
  induction tools with
  | nil => simp at h
  | cons kv rest ih =>
    rcases hk : kv.1 == name with _ | _
    · have hmap : ((kv :: rest).map (fun p => if p.1 == name then (name, entry) else p))
          = kv :: rest.map (fun p => if p.1 == name then (name, entry) else p) := by
        rw [List.map_cons, if_neg (by simp [hk])]
      rw [hmap, List.find?_cons_of_neg _ (by simp [hk])]
      rcases h with ⟨p, hp, hpn⟩
      rcases List.mem_cons.mp hp with rfl | hp2
      · exact absurd (beq_iff_eq.mpr hpn) (by simp [hk])
      · exact ih ⟨p, hp2, hpn⟩
    · have hmap : ((kv :: rest).map (fun p => if p.1 == name then (name, entry) else p))
          = (name, entry) :: rest.map (fun p => if p.1 == name then (name, entry) else p) := by
        rw [List.map_cons, if_pos hk]
      rw [hmap, List.find?_cons_of_pos _ (by simp)]

theorem find?_append_of_none {α : Type} (p : α → Bool) (l1 l2 : List α)
    (h : l1.find? p = none) : (l1 ++ l2).find? p = l2.find? p := by
  induction l1 with
  | nil => rfl
  | cons a rest ih =>
    rcases hpa : p a with _ | _
    · simp only [List.cons_append, List.find?_cons, hpa]
      exact ih (by simpa [List.find?_cons, hpa] using h)
    · simp [List.find?_cons, hpa] at h

theorem countP_map_replace (tools : Registry) (name : String) (entry : ToolEntry) :
    (tools.map (fun p => if p.1 == name then (name, entry) else p)).countP
        (fun p => p.1 == name) = tools.countP (fun p => p.1 == name) := by
  induction tools with
  | nil => rfl
  | cons kv rest ih =>
    rcases hk : kv.1 == name with _ | _
    · have hmap : ((kv :: rest).map (fun p => if p.1 == name then (name, entry) else p))
          = kv :: rest.map (fun p => if p.1 == name then (name, entry) else p) := by
        rw [List.map_cons, if_neg (by simp [hk])]
      rw [hmap, List.countP_cons, List.countP_cons, ih]
    · have hmap : ((kv :: rest).map (fun p => if p.1 == name then (name, entry) else p))
          = (name, entry) :: rest.map (fun p => if p.1 == name then (name, entry) else p) := by
        rw [List.map_cons, if_pos hk]
      rw [hmap, List.countP_cons, List.countP_cons, ih]
      simp [hk]

theorem countP_eq_one_of_nodup (tools : Registry) (name : String)
    (hn : (tools.map Prod.fst).Nodup) (h : ∃ p ∈ tools, p.1 = name) :
    tools.countP (fun p => p.1 == name) = 1 := by
  induction tools with
  | nil => simp at h
  | cons kv rest ih =>
    rw [List.map_cons, List.nodup_cons] at hn
    by_cases hk : kv.1 = name
    · have hknotin : name ∉ rest.map Prod.fst := by rw [← hk]; exact hn.1
      have hzero : rest.countP (fun p => p.1 == name) = 0 := by
        rw [List.countP_eq_zero]
        intro p hp hpn
        have h1 : p.1 = name := beq_iff_eq.mp hpn
        exact hknotin (h1 ▸ List.mem_map_of_mem Prod.fst hp)
      rw [List.countP_cons]
      simp [hk, hzero]
    · rcases h with ⟨p, hp, hpn⟩
      rcases List.mem_cons.mp hp with rfl | hp2
      · exact absurd hpn hk
      · rw [List.countP_cons]
        have hz : (if ((kv.1 == name) = true) then 1 else 0) = 0 := by simp [hk]
        rw [hz, ih hn.2 ⟨p, hp2, hpn⟩]

/-- C8 (amended): with a plain-object schema argument, `addTool` throws
exactly when the name is empty or contains a character outside
alphanumerics, underscore, hyphen and slash — the empty name is the
amendment: it contains no disallowed character, yet the `+` in the
pattern `^[a-zA-Z0-9_\-\/]+$` rejects it.  A throw returns no new
registry (the map is untouched); on success the entry is stored under
the name, silently replacing any previous entry, and with distinct
pre-existing keys the name maps to exactly one entry afterwards. -/
theorem addTool_spec (tools : Registry) (name description : String)
    (fields : List (String × Json)) (execute : Json → Except JsError Json) :
    ((∃ e, addTool tools name description (Json.obj fields) execute = Except.error e)
      ↔ (name = "" ∨ ∃ c ∈ name.data, (c.isAlphanum || c == '_' || c == '-' || c == '/') = false))
    ∧ (∀ tools2, addTool tools name description (Json.obj fields) execute = Except.ok tools2 →
        lookupTool tools2 name = some ⟨description, Json.obj fields, execute⟩
        ∧ ((tools.map Prod.fst).Nodup →
            (tools2.map Prod.fst).Nodup
            ∧ tools2.countP (fun p => p.1 == name) = 1)) := by
  constructor
  · rw [← validToolName_false_iff]
    constructor
    · rintro ⟨e, he⟩
      rcases hv : validToolName name with _ | _
      · rfl
      · simp [addTool, hv, validateSchema] at he
    · intro hv
      refine ⟨⟨"Tool name must contain only alphanumeric characters, underscores, hyphens, and slashes"⟩, ?_⟩
      simp [addTool, hv]
  · intro tools2 hok
    rcases hv : validToolName name with _ | _
    · simp [addTool, hv] at hok
    · simp only [addTool, hv, validateSchema, Bool.false_eq_true, if_false] at hok
      have hok2 : mapSet tools name ⟨description, Json.obj fields, execute⟩ = tools2 :=
        Except.ok.inj hok
      subst hok2
      unfold mapSet
      rcases hany : tools.any (fun p => p.1 == name) with _ | _
      · simp only [Bool.false_eq_true, if_false]
        have hnone : tools.find? (fun p => p.1 == name) = none := by
          rw [List.find?_eq_none]
          intro p hp
          have := List.any_eq_false.mp hany p hp
          simp [this]
        constructor
        · unfold lookupTool
          rw [find?_append_of_none _ _ _ hnone]
          simp [List.find?_cons]
        · intro hn
          constructor
          · simp only [List.map_append, List.map_cons, List.map_nil]
            rw [List.nodup_append]
            refine ⟨hn, List.nodup_singleton name, ?_⟩
            intro a ha hb
            have hb2 : a = name := by simpa using hb
            subst hb2
            rcases List.mem_map.mp ha with ⟨p, hp, hpn⟩
            have := List.any_eq_false.mp hany p hp
            simp [hpn] at this
          · rw [List.countP_append]
            have hzero : tools.countP (fun p => p.1 == name) = 0 := by
              rw [List.countP_eq_zero]
              intro p hp
              have := List.any_eq_false.mp hany p hp
              simp [this]
            simp [hzero, List.countP_cons]
      · simp only [if_true]
        have hex : ∃ p ∈ tools, p.1 = name := by
          rcases List.any_eq_true.mp hany with ⟨p, hp, hpn⟩
          exact ⟨p, hp, beq_iff_eq.mp hpn⟩
        constructor
        · unfold lookupTool
          rw [find?_map_replace tools name _ hex]
          rfl
        · intro hn
          constructor
          · rw [keys_map_replace]
            exact hn
          · rw [countP_map_replace]
            exact countP_eq_one_of_nodup tools name hn hex

theorem addTool_spec_witness :
    lookupTool [("echo", (⟨"d", Json.obj [], fun _ => Except.ok Json.null⟩ : ToolEntry))] "echo"
      = some ⟨"d", Json.obj [], fun _ => Except.ok Json.null⟩
    ∧ ([("echo", (⟨"d", Json.obj [], fun _ => Except.ok Json.null⟩ : ToolEntry))].map
        Prod.fst).Nodup := by
  have h := (addTool_spec [] "echo" "d" [] (fun _ => Except.ok Json.null)).2
      [("echo", ⟨"d", Json.obj [], fun _ => Except.ok Json.null⟩)] rfl
  exact ⟨h.1, (h.2 (by simp)).1⟩

/-- C8 counterexample: the empty name contains no character outside the
allowed set, yet `addTool` throws on it, refuting "throws exactly when
the given name contains a character outside [the allowed set]". -/
theorem addTool_empty_name_cex :
    (∀ c ∈ ("" : String).data, (c.isAlphanum || c == '_' || c == '-' || c == '/') = true)
    ∧ addTool [] "" "d" (Json.obj []) (fun _ => Except.ok Json.null)
        = Except.error
            ⟨"Tool name must contain only alphanumeric characters, underscores, hyphens, and slashes"⟩ :=
  ⟨by simp, rfl⟩

/-! ## Properties of the dispatcher boundary (C3) -/

theorem parseValidate_if_ok {j m : Json}
    (h : (if isJsonrpc20 j = false then
            (Except.error ⟨"Invalid JSON-RPC version"⟩ : Except JsError Json)
          else if truthy (objGet j "id") && !(isStringOrNumber (objGet j "id")) then
            Except.error ⟨"Invalid message ID"⟩
          else if truthy (objGet j "method") && !(isStringV (objGet j "method")) then
            Except.error ⟨"Invalid method name"⟩
          else Except.ok j) = Except.ok m) :
    m = j ∧ isJsonrpc20 j = true ∧ badTruthyId j = false ∧ badTruthyMethod j = false := by
  rcases h20 : isJsonrpc20 j with _ | _
  · simp [h20] at h
  · rcases hid : truthy (objGet j "id") && !(isStringOrNumber (objGet j "id")) with _ | _
    · rcases hm : truthy (objGet j "method") && !(isStringV (objGet j "method")) with _ | _
      · simp [h20, hid, hm] at h
        exact ⟨h.symm, rfl, hid, hm⟩
      · simp [h20, hid, hm] at h
    · simp [h20, hid] at h

theorem parseAndValidate_ok {j m : Json} (h : parseAndValidateMessage (some j) = Except.ok m) :
    m = j ∧ isJsonrpc20 j = true ∧ badTruthyId j = false ∧ badTruthyMethod j = false := by
  unfold parseAndValidateMessage at h
  cases j with
  | null => exact absurd h (by simp)
  | bool b => exact parseValidate_if_ok h
  | num n => exact parseValidate_if_ok h
  | str s => exact parseValidate_if_ok h
  | arr xs => exact parseValidate_if_ok h
  | obj fs => exact parseValidate_if_ok h
  | bytes ds => exact parseValidate_if_ok h

/-- C3 (amended): for input that fails to parse, or parses to a value
whose `jsonrpc` field is not exactly the string `2.0`, or whose `id` is
present, truthy and neither string nor number, or whose `method` is
present, truthy and not a string, the dispatcher emits exactly one error
frame, carrying code -32700 and an absent id, and invokes no handler.
(The JavaScript truthiness guards `message.id && ...` and
`message.method && ...` are the amendment: a present but falsy `id`
such as `null` slips through the type check, see the counterexample.)
Totality of `handleClientData` is the no-crash guarantee: every
validation throw is caught at the boundary. -/
theorem handleClientData_malformed (tools : Registry) (parsed : Option Json)
    (h : parsed = none
      ∨ ∃ j, parsed = some j
          ∧ (isJsonrpc20 j = false ∨ badTruthyId j = true ∨ badTruthyMethod j = true)) :
    ∃ m, (handleClientData tools parsed).frames = [Frame.errorFrame none (-32700) m]
      ∧ countErrorFrames (handleClientData tools parsed).frames (-32700) = 1
      ∧ (handleClientData tools parsed).handlerCalls = [] := by
  have herr : ∃ e, parseAndValidateMessage parsed = Except.error e := by
    rcases h with rfl | ⟨j, rfl, hbad⟩
    · exact ⟨⟨"Invalid JSON format"⟩, rfl⟩
    · rcases hres : parseAndValidateMessage (some j) with e | m
      · exact ⟨e, rfl⟩
      · have hok := parseAndValidate_ok hres
        rcases hbad with hb | hb | hb
        · rw [hok.2.1] at hb; exact absurd hb (by simp)
        · rw [hok.2.2.1] at hb; exact absurd hb (by simp)
        · rw [hok.2.2.2] at hb; exact absurd hb (by simp)
  rcases herr with ⟨e, he⟩
  have hout : handleClientData tools parsed
      = ⟨[Frame.errorFrame none (-32700) ("Parse error: " ++ e.message)], []⟩ := by
    unfold handleClientData
    rw [he]
    rfl
  refine ⟨"Parse error: " ++ e.message, ?_, ?_, ?_⟩ <;> (rw [hout]; try rfl)

theorem handleClientData_malformed_witness :
    ∃ m, (handleClientData [] none).frames = [Frame.errorFrame none (-32700) m]
      ∧ countErrorFrames (handleClientData [] none).frames (-32700) = 1
      ∧ (handleClientData [] none).handlerCalls = [] :=
  handleClientData_malformed [] none (Or.inl rfl)

/-- C3 counterexample: the frame with `id: null` (present, neither
string nor number) passes validation thanks to the truthiness guard, so
the dispatcher answers the `ping` with a result frame and sends zero
-32700 error frames, refuting the claim as stated. -/
theorem handleClientData_idNull_cex :
    objGet msgIdNullPing "id" = some Json.null
    ∧ isStringOrNumber (objGet msgIdNullPing "id") = false
    ∧ (handleClientData [] (some msgIdNullPing)).frames = [Frame.pingResult (some Json.null)]
    ∧ countErrorFrames (handleClientData [] (some msgIdNullPing)).frames (-32700) = 0 :=
  ⟨rfl, rfl, rfl, rfl⟩

/-! ## Properties of tools/call dispatch (C4) -/

theorem truthy_of_field (p : Json) (k : String) (h : truthy (objGet p k) = true) :
    truthy (some p) = true := by
  cases p with
  | obj fs => rfl
  | null => exact absurd h (by simp [objGet, truthy])
  | bool b => exact absurd h (by simp [objGet, truthy])
  | num n => exact absurd h (by simp [objGet, truthy])
  | str s => exact absurd h (by simp [objGet, truthy])
  | arr xs => exact absurd h (by simp [objGet, truthy])
  | bytes ds => exact absurd h (by simp [objGet, truthy])

/-- C4 (amended): for a `tools/call` request, a missing or falsy `params`
or a missing or falsy `params.name` yields a single -32602 error frame
with no handler invoked (the falsy empty-string name is the amendment:
it is rejected as -32602 before the registry is consulted, see the
counterexample); a truthy name not naming a registry entry yields a
single -32601 frame with no handler invoked; and a registered tool whose
handler throws yields a single -32000 frame whose message carries the
original error message, the exception never escaping the dispatch
boundary (totality of `handleToolCall`). -/
theorem handleToolCall_spec (tools : Registry) (msg : Json) :
    ((truthy (objGet msg "params") = false
        ∨ ∃ p, objGet msg "params" = some p ∧ truthy (objGet p "name") = false) →
      (handleToolCall tools msg).frames
          = [Frame.errorFrame (objGet msg "id") (-32602) "Invalid params: tool name required"]
        ∧ (handleToolCall tools msg).handlerCalls = [])
    ∧ (∀ p, objGet msg "params" = some p → truthy (objGet p "name") = true →
        (∀ s, objGet p "name" = some (Json.str s) → lookupTool tools s = none) →
        (handleToolCall tools msg).frames
            = [Frame.errorFrame (objGet msg "id") (-32601)
                ("Tool not found: " ++ jsToString ((objGet p "name").getD Json.null))]
          ∧ (handleToolCall tools msg).handlerCalls = [])
    ∧ (∀ p s entry err, objGet msg "params" = some p →
        objGet p "name" = some (Json.str s) → truthy (some (Json.str s)) = true →
        lookupTool tools s = some entry →
        validateParameters (toolCallArgs p) entry.parameters = Except.ok () →
        entry.execute (toolCallArgs p) = Except.error err →
        (handleToolCall tools msg).frames
            = [Frame.errorFrame (objGet msg "id") (-32000)
                ("Tool execution failed: " ++ ("Tool " ++ s ++ " failed: " ++ err.message))]
          ∧ (handleToolCall tools msg).handlerCalls = [s]) := by
  refine ⟨?_, ?_, ?_⟩
  · intro h1
    rcases hpm : objGet msg "params" with _ | p
    · have heq : handleToolCall tools msg
          = ⟨[Frame.errorFrame (objGet msg "id") (-32602) "Invalid params: tool name required"],
             []⟩ := by
        simp only [handleToolCall, hpm]
        rfl
      rw [heq]
      exact ⟨rfl, rfl⟩
    · rcases h1 with hb | ⟨p2, hp2, hb⟩
      · rw [hpm] at hb
        have heq : handleToolCall tools msg
            = ⟨[Frame.errorFrame (objGet msg "id") (-32602) "Invalid params: tool name required"],
               []⟩ := by
          simp only [handleToolCall, hpm]
          rw [if_pos hb]
          rfl
        rw [heq]
        exact ⟨rfl, rfl⟩
      · rw [hpm] at hp2
        obtain rfl : p = p2 := Option.some.inj hp2
        rcases htp : truthy (some p) with _ | _
        · have heq : handleToolCall tools msg
              = ⟨[Frame.errorFrame (objGet msg "id") (-32602) "Invalid params: tool name required"],
                 []⟩ := by
            simp only [handleToolCall, hpm]
            rw [if_pos htp]
            rfl
          rw [heq]
          exact ⟨rfl, rfl⟩
        · have heq : handleToolCall tools msg
              = ⟨[Frame.errorFrame (objGet msg "id") (-32602) "Invalid params: tool name required"],
                 []⟩ := by
            simp only [handleToolCall, hpm]
            rw [if_neg (by simp [htp]), if_pos hb]
            rfl
          rw [heq]
          exact ⟨rfl, rfl⟩
  · intro p hp hname hnone
    have htp : truthy (some p) = true := truthy_of_field p "name" hname
    rcases hnv : objGet p "name" with _ | v
    · rw [hnv] at hname
      exact absurd hname (by simp [truthy])
    · have hname2 : truthy (some v) = true := by rw [hnv] at hname; exact hname
      have heq : handleToolCall tools msg
          = ⟨[Frame.errorFrame (objGet msg "id") (-32601)
              ("Tool not found: " ++ jsToString ((some v).getD Json.null))], []⟩ := by
        simp only [handleToolCall, hp]
        rw [if_neg (by simp [htp]), hnv, if_neg (by simp [hname2])]
        cases v with
        | str s =>
          simp [hnone s hnv, sendError]
        | null => rfl
        | bool b => rfl
        | num n => rfl
        | arr xs => rfl
        | obj fs => rfl
        | bytes ds => rfl
      rw [heq]
      exact ⟨rfl, rfl⟩
  · intro p s entry err hp hnv hts hentry hval hexec
    have hname : truthy (objGet p "name") = true := by rw [hnv]; exact hts
    have htp : truthy (some p) = true := truthy_of_field p "name" hname
    have hrun : runToolExecute tools s (toolCallArgs p)
        = (Except.error (formatError err s), true) := by
      unfold runToolExecute
      simp only [hentry, hval, hexec]
    have heq : handleToolCall tools msg
        = ⟨[Frame.errorFrame (objGet msg "id") (-32000)
            ("Tool execution failed: " ++ ("Tool " ++ s ++ " failed: " ++ err.message))], [s]⟩ := by
      simp only [handleToolCall, hp, hnv]
      rw [if_neg (by simp [htp]), if_neg (by simp [hts])]
      simp only [hentry, Option.map_some', hrun]
      rfl
    rw [heq]
    exact ⟨rfl, rfl⟩

theorem handleToolCall_spec_witness :
    (handleToolCall demoRegistry msgCallDemo).frames
        = [Frame.errorFrame (some (Json.num 1)) (-32000)
            ("Tool execution failed: " ++ ("Tool " ++ "demo" ++ " failed: " ++ "boom"))]
      ∧ (handleToolCall demoRegistry msgCallDemo).handlerCalls = ["demo"] :=
  (handleToolCall_spec demoRegistry msgCallDemo).2.2
    (Json.obj [("name", Json.str "demo")]) "demo" boomTool ⟨"boom"⟩
    rfl rfl rfl rfl rfl rfl

/-- C4 counterexample: the empty string names no registry entry (the
name pattern of `addTool` cannot admit it), yet the response to calling
it is -32602, not the -32601 the claim requires for a tool absent from
the registry. -/
theorem handleToolCall_emptyName_cex :
    lookupTool ([] : Registry) "" = none
    ∧ (handleClientData [] (some msgEmptyToolName)).frames
        = [Frame.errorFrame (some (Json.num 1)) (-32602) "Invalid params: tool name required"]
    ∧ ¬((-32602 : Int) = -32601) :=
  ⟨rfl, rfl, by decide⟩

/-! ## Properties of initialize version negotiation (C5) -/

/-- C5 (amended): an `initialize` request whose `protocolVersion` is
present and truthy but outside the two supported literals is answered
with a single -32002 error frame carrying no capability data; a request
whose version is one of the two literals is answered with a result
frame negotiating that version; and a request whose version is absent —
or falsy, such as the empty string, which `|| '2024-06-13'` silently
replaces with the default (the amendment, see the counterexample) — is
answered with a result frame negotiating `2024-06-13`. -/
theorem handleInitialize_spec (tools : Registry) (msg : Json) :
    (truthy (protocolVersionOf msg) = true →
      isSupportedVersionV (protocolVersionOf msg) = false →
      (handleInitialize tools msg).frames
          = [Frame.errorFrame (objGet msg "id") (-32002)
              ("Unsupported protocol version: "
                ++ jsToString ((protocolVersionOf msg).getD Json.null))]
        ∧ ∀ f ∈ (handleInitialize tools msg).frames, carriesCapabilities f = false)
    ∧ (truthy (protocolVersionOf msg) = false →
        (handleInitialize tools msg).frames
          = [Frame.initResult (objGet msg "id") (Json.str "2024-06-13")
              (getServerCapabilities tools)])
    ∧ (∀ v, protocolVersionOf msg = some v → isSupportedVersionV (some v) = true →
        (handleInitialize tools msg).frames
          = [Frame.initResult (objGet msg "id") v (getServerCapabilities tools)]) := by
  refine ⟨?_, ?_, ?_⟩
  · intro ht hsup
    rcases hpv : protocolVersionOf msg with _ | v
    · rw [hpv] at ht
      exact absurd ht (by simp [truthy])
    · rw [hpv] at ht hsup
      have heq : handleInitialize tools msg
          = ⟨[Frame.errorFrame (objGet msg "id") (-32002)
              ("Unsupported protocol version: " ++ jsToString v)], []⟩ := by
        simp only [handleInitialize, hpv]
        rw [if_pos ht]
        simp only [Option.getD_some]
        rw [if_neg (by simp [hsup])]
        rfl
      rw [heq]
      refine ⟨rfl, ?_⟩
      intro f hf
      rw [List.mem_singleton] at hf
      subst hf
      rfl
  · intro ht
    have hcv : (if truthy (protocolVersionOf msg) = true then
          (protocolVersionOf msg).getD Json.null
        else Json.str "2024-06-13") = Json.str "2024-06-13" := if_neg (by simp [ht])
    have heq : handleInitialize tools msg
        = ⟨[Frame.initResult (objGet msg "id") (Json.str "2024-06-13")
            (getServerCapabilities tools)], []⟩ := by
      simp only [handleInitialize, hcv]
      rfl
    rw [heq]
  · intro v hpv hsup
    have ht : truthy (some v) = true := by
      cases v with
      | str s =>
        simp only [isSupportedVersionV, Bool.or_eq_true, beq_iff_eq] at hsup
        rcases hsup with rfl | rfl <;> decide
      | null => simp [isSupportedVersionV] at hsup
      | bool b => simp [isSupportedVersionV] at hsup
      | num n => simp [isSupportedVersionV] at hsup
      | arr xs => simp [isSupportedVersionV] at hsup
      | obj fs => simp [isSupportedVersionV] at hsup
      | bytes ds => simp [isSupportedVersionV] at hsup
    have heq : handleInitialize tools msg
        = ⟨[Frame.initResult (objGet msg "id") v (getServerCapabilities tools)], []⟩ := by
      simp only [handleInitialize, hpv]
      rw [if_pos ht]
      simp only [Option.getD_some]
      rw [if_pos hsup]
    rw [heq]

theorem handleInitialize_spec_witness :
    (handleInitialize [] msgInitV7).frames
        = [Frame.errorFrame (some (Json.num 1)) (-32002)
            ("Unsupported protocol version: "
              ++ jsToString ((protocolVersionOf msgInitV7).getD Json.null))]
      ∧ ∀ f ∈ (handleInitialize [] msgInitV7).frames, carriesCapabilities f = false :=
  (handleInitialize_spec [] msgInitV7).1 rfl rfl

/-- C5 counterexample: the empty-string protocol version is outside the
two supported literals, yet `params?.protocolVersion || '2024-06-13'`
treats it as absent: the dispatcher answers with a successful result
frame carrying the full capability descriptor instead of error -32002,
refuting the claim as stated. -/
theorem handleInitialize_emptyVersion_cex :
    protocolVersionOf msgEmptyProtocolVersion = some (Json.str "")
    ∧ isSupportedVersionV (some (Json.str "")) = false
    ∧ (handleInitialize [] msgEmptyProtocolVersion).frames
        = [Frame.initResult (some (Json.num 1)) (Json.str "2024-06-13")
            (getServerCapabilities [])]
    ∧ carriesCapabilities
        (Frame.initResult (some (Json.num 1)) (Json.str "2024-06-13")
          (getServerCapabilities [])) = true :=
  ⟨rfl, rfl, rfl, rfl⟩

/-! ## Properties of connection bookkeeping (C6, C7) -/

/-- C6: the cap is not enforced against the active set.  After a
heartbeat removal of `a` (which ends the stream, closing the socket and
hence firing the request close listener) the close listener decrements
`connectionCount` a second time, so with `maxConnections = 1` the trace
connect `a` / sweep at 31 s / close event for `a` / connect `b` /
connect `c` reaches a state whose active set holds two connections — and
the `c` attempt arrived while the active set was already at the cap yet
was not rejected (`rejectedIds = []`). -/
theorem connectionCap_violation :
    Reach overCapMid 31000
    ∧ overCapMid.clients.length = overCapMid.maxConnections
    ∧ connStep overCapMid (ConnEvent.connect "c" 31000) = overCapFinal
    ∧ Reach overCapFinal 31000
    ∧ overCapFinal.maxConnections = 1
    ∧ overCapFinal.clients.length = 2
    ∧ overCapFinal.rejectedIds = [] := by
  have h0 : Reach (initConnState 1) 0 := Reach.init 1
  have h1 : Reach (⟨[("a", 0)], 1, 1, ["a"], [], [], []⟩ : ConnState) 0 :=
    Reach.step (ConnEvent.connect "a" 0) h0 (by decide)
  have h2 : Reach (⟨[], 0, 1, ["a"], ["a"], [], []⟩ : ConnState) 31000 :=
    Reach.step (ConnEvent.sweep 31000) h1 (by decide)
  have h3 : Reach (⟨[], -1, 1, ["a"], ["a"], [], ["a"]⟩ : ConnState) 31000 :=
    Reach.step (ConnEvent.closeEvt "a") h2 (by decide)
  have h4 : Reach overCapMid 31000 :=
    Reach.step (ConnEvent.connect "b" 31000) h3 (by decide)
  have h5 : Reach overCapFinal 31000 :=
    Reach.step (ConnEvent.connect "c" 31000) h4 (by decide)
  exact ⟨h4, rfl, rfl, h5, rfl, rfl, rfl⟩

theorem eq_of_mem_nodup_keys {α : Type} {l : List (String × α)}
    (h : (l.map Prod.fst).Nodup) {a b : String × α} (ha : a ∈ l) (hb : b ∈ l)
    (hk : a.1 = b.1) : a = b := by
  induction l with
  | nil => simp at ha
  | cons c rest ih =>
    rw [List.map_cons, List.nodup_cons] at h
    rcases List.mem_cons.mp ha with rfl | ha2
    · rcases List.mem_cons.mp hb with rfl | hb2
      · rfl
      · refine absurd ?_ h.1
        rw [hk]
        exact List.mem_map_of_mem Prod.fst hb2
    · rcases List.mem_cons.mp hb with rfl | hb2
      · refine absurd ?_ h.1
        rw [← hk]
        exact List.mem_map_of_mem Prod.fst ha2
      · exact ih h.2 ha2 hb2

theorem keys_map_update {α : Type} (l : List (String × α)) (id : String) (x : α) :
    (l.map (fun c => if c.1 == id then (id, x) else c)).map Prod.fst = l.map Prod.fst := by
  induction l with
  | nil => rfl
  | cons c rest ih =>
    rcases hk : c.1 == id with _ | _
    · simp only [List.map_cons]
      rw [if_neg (by simp [hk]), ih]
    · simp only [List.map_cons]
      rw [if_pos hk, ih, beq_iff_eq.mp hk]

/-- The bookkeeping invariant holds in every reachable state. -/
theorem reach_inv {s : ConnState} {t : Nat} (hr : Reach s t) : ConnInv s := by
  induction hr with
  | init cap => simp [ConnInv, initConnState]
  | step e hr hok ih =>
    obtain ⟨i1, i2, i3, i4, i5⟩ := ih
    rename_i s t
    cases e with
    | connect id now =>
      have hok2 : id ∉ s.everConnected ∧ id ∉ s.rejectedIds ∧ t ≤ now := hok
      show ConnInv (connStep s (ConnEvent.connect id now))
      simp only [connStep]
      by_cases hcap : (s.maxConnections : Int) ≤ s.connectionCount
      · rw [if_pos hcap]
        exact ⟨i1, i2, i3, i4, i5⟩
      · rw [if_neg hcap]
        refine ⟨?_, ?_, i3, ?_, ?_⟩
        · show ((s.clients ++ [(id, now)]).map Prod.fst).Nodup
          rw [List.map_append, List.nodup_append]
          refine ⟨i1, by simp, ?_⟩
          intro a ha hb
          have : a = id := by simpa using hb
          subst this
          exact hok2.1 (i2 a ha)
        · intro k hk
          rw [List.map_append, List.mem_append] at hk
          rcases hk with hk | hk
          · exact List.mem_append_left _ (i2 k hk)
          · have : k = id := by simpa using hk
            subst this
            exact List.mem_append_right _ (by simp)
        · intro cid hc
          rw [List.map_append, List.mem_append]
          rintro (hmem | hmem)
          · exact i4 cid hc hmem
          · have : cid = id := by simpa using hmem
            subst this
            exact hok2.1 (i5 cid hc)
        · intro cid hc
          exact List.mem_append_left _ (i5 cid hc)
    | activity id now =>
      show ConnInv (connStep s (ConnEvent.activity id now))
      refine ⟨?_, ?_, i3, ?_, i5⟩
      · show ((s.clients.map (fun c => if c.1 == id then (id, now) else c)).map Prod.fst).Nodup
        rw [keys_map_update]
        exact i1
      · intro k hk
        have hk2 : k ∈ (s.clients.map (fun c => if c.1 == id then (id, now) else c)).map
            Prod.fst := hk
        rw [keys_map_update] at hk2
        exact i2 k hk2
      · intro cid hc
        have hc2 : cid ∈ s.closedIds := hc
        show cid ∉ (s.clients.map (fun c => if c.1 == id then (id, now) else c)).map Prod.fst
        rw [keys_map_update]
        exact i4 cid hc2
    | closeEvt id =>
      have hsub : ((s.clients.filter (fun c => !(c.1 == id))).map Prod.fst).Sublist
          (s.clients.map Prod.fst) := (List.filter_sublist _).map _
      exact ⟨i1.sublist hsub, fun k hk => i2 k (hsub.subset hk), i3,
        fun cid hc hmem => i4 cid hc (hsub.subset hmem), i5⟩
    | sweep now =>
      have hsubf : ((s.clients.filter (fun c => now - c.2 ≤ 30000)).map Prod.fst).Sublist
          (s.clients.map Prod.fst) := (List.filter_sublist _).map _
      have hsubs : ((s.clients.filter (fun c => 30000 < now - c.2)).map Prod.fst).Sublist
          (s.clients.map Prod.fst) := (List.filter_sublist _).map _
      have hstaleNodup : ((s.clients.filter (fun c => 30000 < now - c.2)).map Prod.fst).Nodup :=
        i1.sublist hsubs
      refine ⟨i1.sublist hsubf, fun k hk => i2 k (hsubf.subset hk), ?_, ?_, ?_⟩
      · intro cid
        show (s.closedIds
            ++ (s.clients.filter (fun c => 30000 < now - c.2)).map Prod.fst).count cid ≤ 1
        rw [List.count_append]
        by_cases hcid : cid ∈ (s.clients.filter (fun c => 30000 < now - c.2)).map Prod.fst
        · have h0 : s.closedIds.count cid = 0 := by
            rw [List.count_eq_zero]
            intro hmem
            exact i4 cid hmem (hsubs.subset hcid)
          have h1 : ((s.clients.filter (fun c => 30000 < now - c.2)).map Prod.fst).count cid ≤ 1 :=
            List.nodup_iff_count_le_one.mp hstaleNodup cid
          omega
        · have h1 : ((s.clients.filter (fun c => 30000 < now - c.2)).map Prod.fst).count cid = 0 :=
            List.count_eq_zero.mpr hcid
          have := i3 cid
          omega
      · intro cid hc
        have hca : cid ∈ s.closedIds
            ++ (s.clients.filter (fun c => 30000 < now - c.2)).map Prod.fst := hc
        rw [List.mem_append] at hca
        intro hmem
        have hmema : cid ∈ (s.clients.filter (fun c => now - c.2 ≤ 30000)).map Prod.fst := hmem
        obtain ⟨c2, hc2, he2⟩ := List.mem_map.mp hmema
        have hc2f := List.mem_filter.mp hc2
        rcases hca with hold | hstale
        · exact i4 cid hold (hsubf.subset hmema)
        · obtain ⟨c1, hc1, he1⟩ := List.mem_map.mp hstale
          have hc1f := List.mem_filter.mp hc1
          have heq : c1 = c2 := eq_of_mem_nodup_keys i1 hc1f.1 hc2f.1 (by rw [he1, he2])
          subst heq
          have hx1 := hc1f.2
          have hx2 := hc2f.2
          simp at hx1 hx2
          omega
      · intro cid hc
        have hca : cid ∈ s.closedIds
            ++ (s.clients.filter (fun c => 30000 < now - c.2)).map Prod.fst := hc
        rw [List.mem_append] at hca
        rcases hca with hold | hstale
        · exact i5 cid hold
        · exact i2 cid (hsubs.subset hstale)
    | destroy =>
      show ConnInv (connStep s ConnEvent.destroy)
      refine ⟨?_, ?_, ?_, ?_, ?_⟩
      · show (([] : List (String × Nat)).map Prod.fst).Nodup
        simp
      · intro k hk
        have hk2 : k ∈ ([] : List String) := hk
        simp at hk2
      · intro cid
        show (s.closedIds ++ s.clients.map Prod.fst).count cid ≤ 1
        rw [List.count_append]
        by_cases hcid : cid ∈ s.clients.map Prod.fst
        · have h0 : s.closedIds.count cid = 0 := by
            rw [List.count_eq_zero]
            intro hmem
            exact i4 cid hmem hcid
          have h1 : (s.clients.map Prod.fst).count cid ≤ 1 :=
            List.nodup_iff_count_le_one.mp i1 cid
          omega
        · have h1 : (s.clients.map Prod.fst).count cid = 0 := List.count_eq_zero.mpr hcid
          have := i3 cid
          omega
      · intro cid hc
        intro hmem
        have hm2 : cid ∈ ([] : List String) := hmem
        simp at hm2
      · intro cid hc
        have hca : cid ∈ s.closedIds ++ s.clients.map Prod.fst := hc
        rw [List.mem_append] at hca
        rcases hca with hold | hkeys
        · exact i5 cid hold
        · exact i2 cid hkeys

/-- C7: in every reachable state each connection stream has been ended
at most once (no double-close across sweeps, close events and destroy);
a heartbeat sweep at an instant more than 30 s past a connection's last
activity removes it from the active set and ends its stream exactly
once; and such a sweep is itself a legal next step of the system.
Sweep instants are unconstrained beyond clock monotonicity, covering in
particular the 15-second schedule of the source. -/
theorem heartbeat_close_spec (s : ConnState) (t : Nat) (hr : Reach s t) :
    (∀ id, s.closedIds.count id ≤ 1)
    ∧ (∀ id last now, (id, last) ∈ s.clients → 30000 < now - last →
        id ∉ (connStep s (ConnEvent.sweep now)).clients.map Prod.fst
        ∧ (connStep s (ConnEvent.sweep now)).closedIds.count id = 1)
    ∧ (∀ now, t ≤ now → Reach (connStep s (ConnEvent.sweep now)) now) := by
  obtain ⟨i1, i2, i3, i4, i5⟩ := reach_inv hr
  refine ⟨i3, ?_, ?_⟩
  · intro id last now hmem hstale
    have hidstale : (id, last) ∈ s.clients.filter (fun c => 30000 < now - c.2) :=
      List.mem_filter.mpr ⟨hmem, by simpa using hstale⟩
    have hidkeys : id ∈ (s.clients.filter (fun c => 30000 < now - c.2)).map Prod.fst :=
      List.mem_map_of_mem Prod.fst hidstale
    constructor
    · intro hmem2
      obtain ⟨c2, hc2, he2⟩ := List.mem_map.mp hmem2
      have hc2f := List.mem_filter.mp hc2
      have heq : (id, last) = c2 := eq_of_mem_nodup_keys i1 hmem hc2f.1 (by rw [he2])
      have hx2 := hc2f.2
      rw [← heq] at hx2
      simp at hx2
      omega
    · show (s.closedIds
          ++ (s.clients.filter (fun c => 30000 < now - c.2)).map Prod.fst).count id = 1
      rw [List.count_append]
      have h0 : s.closedIds.count id = 0 := by
        rw [List.count_eq_zero]
        intro hmem2
        exact i4 id hmem2 (List.mem_map_of_mem Prod.fst hmem)
      have hsubs : ((s.clients.filter (fun c => 30000 < now - c.2)).map Prod.fst).Sublist
          (s.clients.map Prod.fst) := (List.filter_sublist _).map _
      have h1 : ((s.clients.filter (fun c => 30000 < now - c.2)).map Prod.fst).count id ≤ 1 :=
        List.nodup_iff_count_le_one.mp (i1.sublist hsubs) id
      have h2 : 0 < ((s.clients.filter (fun c => 30000 < now - c.2)).map Prod.fst).count id :=
        List.count_pos_iff.mpr hidkeys
      omega
  · intro now hle
    exact Reach.step (ConnEvent.sweep now) hr hle

theorem heartbeat_close_spec_witness :
    "a" ∉ (connStep ⟨[("a", 0)], 1, 100, ["a"], [], [], []⟩
        (ConnEvent.sweep 31000)).clients.map Prod.fst
    ∧ (connStep ⟨[("a", 0)], 1, 100, ["a"], [], [], []⟩
        (ConnEvent.sweep 31000)).closedIds.count "a" = 1 := by
  have hr : Reach (⟨[("a", 0)], 1, 100, ["a"], [], [], []⟩ : ConnState) 0 :=
    Reach.step (ConnEvent.connect "a" 0) (Reach.init 100) (by decide)
  exact (heartbeat_close_spec _ 0 hr).2.1 "a" 0 31000 (by decide) (by decide)

/-! ## Properties of the fallback loop (C1) -/

theorem fallbackLoop_zero {T : Type} (call : Nat → String → Except ApiError T)
    (m : Nat) (s : ApiKeyState) (le : Option ApiError) :
    fallbackLoop call m 0 s le
      = ⟨Except.error (le.getD ⟨"All API key attempts failed", none⟩), s, []⟩ := rfl

theorem fallbackLoop_succ_keyfail {T : Type} {call : Nat → String → Except ApiError T}
    {m r : Nat} {s : ApiKeyState} {le : Option ApiError} {e : ApiError}
    (hkey : getCurrentApiKey s = Except.error e) :
    fallbackLoop call m (r + 1) s le
      = ⟨(fallbackLoop call m r s (some e)).result,
         (fallbackLoop call m r s (some e)).state,
         FbStep.keyLookupFailed (m - (r + 1)) e
           :: ((if 0 < r then [FbStep.slept (2 ^ (m - (r + 1)))] else [])
             ++ (fallbackLoop call m r s (some e)).steps)⟩ := by
  simp only [fallbackLoop, hkey]

theorem fallbackLoop_succ_ok {T : Type} {call : Nat → String → Except ApiError T}
    {m r : Nat} {s : ApiKeyState} {le : Option ApiError} {key : String} {v : T}
    (hkey : getCurrentApiKey s = Except.ok key)
    (hcall : call (m - (r + 1)) key = Except.ok v) :
    fallbackLoop call m (r + 1) s le
      = ⟨Except.ok v, s, [FbStep.call (m - (r + 1)) key (Except.ok v)]⟩ := by
  simp only [fallbackLoop, hkey, hcall]

theorem fallbackLoop_succ_err {T : Type} {call : Nat → String → Except ApiError T}
    {m r : Nat} {s : ApiKeyState} {le : Option ApiError} {key : String} {e : ApiError}
    (hkey : getCurrentApiKey s = Except.ok key)
    (hcall : call (m - (r + 1)) key = Except.error e) :
    fallbackLoop call m (r + 1) s le
      = ⟨(fallbackLoop call m r (if isAuthError e then rotateState s else s) (some e)).result,
         (fallbackLoop call m r (if isAuthError e then rotateState s else s) (some e)).state,
         FbStep.call (m - (r + 1)) key (Except.error e)
           :: ((if isAuthError e then
                  [FbStep.rotated (if isAuthError e then rotateState s else s).currentApiKeyIndex]
                else [])
             ++ (if 0 < r then [FbStep.slept (2 ^ (m - (r + 1)))] else [])
             ++ (fallbackLoop call m r (if isAuthError e then rotateState s else s)
                  (some e)).steps)⟩ := by
  simp only [fallbackLoop, hkey, hcall]

theorem fallbackLoop_call_range {T : Type} (call : Nat → String → Except ApiError T)
    (m : Nat) : ∀ (r : Nat) (s : ApiKeyState) (le : Option ApiError), r ≤ m →
    ∀ i k res, FbStep.call i k res ∈ (fallbackLoop call m r s le).steps →
      m - r ≤ i ∧ i < m := by
  intro r
  induction r with
  | zero => intro s le _ i k res hmem; simp [fallbackLoop_zero] at hmem
  | succ r ih =>
    intro s le hr i k res hmem
    rcases hkey : getCurrentApiKey s with e | key
    · rw [fallbackLoop_succ_keyfail hkey] at hmem
      simp only [List.mem_cons, List.mem_append] at hmem
      rcases hmem with h1 | h1
      · exact FbStep.noConfusion h1
      · rcases h1 with h1 | h1
        · by_cases hr0 : 0 < r <;> simp [hr0] at h1
        · have := ih s (some e) (by omega) i k res h1
          omega
    · rcases hcall : call (m - (r + 1)) key with e | v
      case ok =>
        rw [fallbackLoop_succ_ok hkey hcall] at hmem
        simp only [List.mem_singleton, FbStep.call.injEq] at hmem
        omega
      case error =>
        rw [fallbackLoop_succ_err hkey hcall] at hmem
        simp only [List.mem_cons, List.mem_append] at hmem
        rcases hmem with h1 | h1
        · rw [FbStep.call.injEq] at h1
          omega
        · rcases h1 with (h1 | h1) | h1
          · by_cases hauth : isAuthError e = true <;> simp [hauth] at h1
          · by_cases hr0 : 0 < r <;> simp [hr0] at h1
          · have := ih _ (some e) (by omega) i k res h1
            omega

theorem fallbackLoop_first_success {T : Type} (call : Nat → String → Except ApiError T)
    (m : Nat) : ∀ (r : Nat) (s : ApiKeyState) (le : Option ApiError), r ≤ m →
    ∀ i k v, FbStep.call i k (Except.ok v) ∈ (fallbackLoop call m r s le).steps →
      (fallbackLoop call m r s le).result = Except.ok v
      ∧ ∀ j k2 r2, FbStep.call j k2 r2 ∈ (fallbackLoop call m r s le).steps → j ≤ i := by
  intro r
  induction r with
  | zero => intro s le _ i k v hmem; simp [fallbackLoop_zero] at hmem
  | succ r ih =>
    intro s le hr i k v hmem
    rcases hkey : getCurrentApiKey s with e | key
    · rw [fallbackLoop_succ_keyfail hkey] at hmem ⊢
      simp only [List.mem_cons, List.mem_append] at hmem
      rcases hmem with h1 | h1 | h1
      · exact FbStep.noConfusion h1
      · by_cases hr0 : 0 < r <;> simp [hr0] at h1
      · have hres := ih s (some e) (by omega) i k v h1
        refine ⟨hres.1, ?_⟩
        intro j k2 r2 hj
        simp only [List.mem_cons, List.mem_append] at hj
        rcases hj with h2 | h2 | h2
        · exact FbStep.noConfusion h2
        · by_cases hr0 : 0 < r <;> simp [hr0] at h2
        · exact hres.2 j k2 r2 h2
    · rcases hcall : call (m - (r + 1)) key with e | v2
      case ok =>
        rw [fallbackLoop_succ_ok hkey hcall] at hmem ⊢
        simp only [List.mem_singleton, FbStep.call.injEq, Except.ok.injEq] at hmem
        obtain ⟨hi, hk, hv⟩ := hmem
        subst hv
        refine ⟨rfl, ?_⟩
        intro j k2 r2 hj
        simp only [List.mem_singleton, FbStep.call.injEq] at hj
        omega
      case error =>
        rw [fallbackLoop_succ_err hkey hcall] at hmem ⊢
        simp only [List.mem_cons, List.mem_append] at hmem
        rcases hmem with h1 | (h1 | h1) | h1
        · rw [FbStep.call.injEq] at h1
          exact absurd h1.2.2 (by simp)
        · by_cases hauth : isAuthError e = true <;> simp [hauth] at h1
        · by_cases hr0 : 0 < r <;> simp [hr0] at h1
        · have hres := ih _ (some e) (by omega) i k v h1
          have hrange := fallbackLoop_call_range call m r _ (some e) (by omega) i k
            (Except.ok v) h1
          refine ⟨hres.1, ?_⟩
          intro j k2 r2 hj
          simp only [List.mem_cons, List.mem_append] at hj
          rcases hj with h2 | (h2 | h2) | h2
          · rw [FbStep.call.injEq] at h2
            omega
          · by_cases hauth : isAuthError e = true <;> simp [hauth] at h2
          · by_cases hr0 : 0 < r <;> simp [hr0] at h2
          · exact hres.2 j k2 r2 h2

theorem fallbackLoop_state_fold {T : Type} (call : Nat → String → Except ApiError T)
    (m : Nat) : ∀ (r : Nat) (s : ApiKeyState) (le : Option ApiError),
    (fallbackLoop call m r s le).state
      = (fallbackLoop call m r s le).steps.foldl stepRotEffect s := by
  intro r
  induction r with
  | zero => intro s le; rfl
  | succ r ih =>
    intro s le
    rcases hkey : getCurrentApiKey s with e | key
    · rw [fallbackLoop_succ_keyfail hkey]
      by_cases hr0 : 0 < r
      · rw [if_pos hr0]
        simp only [List.foldl_cons, List.foldl_append, List.foldl_nil, stepRotEffect]
        exact ih s (some e)
      · rw [if_neg hr0]
        simp only [List.foldl_cons, List.nil_append, stepRotEffect]
        exact ih s (some e)
    · rcases hcall : call (m - (r + 1)) key with e | v
      case ok =>
        rw [fallbackLoop_succ_ok hkey hcall]
        rfl
      case error =>
        rw [fallbackLoop_succ_err hkey hcall]
        by_cases hauth : isAuthError e = true
        · rw [if_pos hauth]
          by_cases hr0 : 0 < r
          · rw [if_pos hr0]
            simp only [if_pos hauth, List.foldl_cons, List.foldl_append, List.foldl_nil,
              stepRotEffect, hauth, if_true]
            exact ih (rotateState s) (some e)
          · rw [if_neg hr0]
            simp only [if_pos hauth, List.foldl_cons, List.foldl_append, List.foldl_nil,
              stepRotEffect, hauth, if_true]
            exact ih (rotateState s) (some e)
        · have hauthf : isAuthError e = false := by simpa using hauth
          rw [if_neg hauth]
          by_cases hr0 : 0 < r
          · rw [if_pos hr0]
            simp only [if_neg hauth, List.foldl_cons, List.foldl_append, List.foldl_nil,
              List.nil_append, stepRotEffect, hauthf, Bool.false_eq_true, if_false]
            exact ih s (some e)
          · rw [if_neg hr0]
            simp only [if_neg hauth, List.foldl_cons, List.foldl_append, List.foldl_nil,
              List.nil_append, stepRotEffect, hauthf, Bool.false_eq_true, if_false]
            exact ih s (some e)

theorem rotateState_keys (s : ApiKeyState) : (rotateState s).keys = s.keys := by
  unfold rotateState rotateApiKey getCurrentApiKey
  by_cases h1 : s.keys.length ≤ 1
  · by_cases h0 : s.keys.length = 0
    · simp [h1, h0, Except.map]
    · simp [h1, h0, Except.map]
  · simp [h1]

theorem getCurrentApiKey_ok_of_ne_zero (s : ApiKeyState) (h : s.keys.length ≠ 0) :
    getCurrentApiKey s = Except.ok (s.keys.getD s.currentApiKeyIndex "") := by
  unfold getCurrentApiKey
  rw [if_neg h]

theorem fallbackLoop_retry {T : Type} (call : Nat → String → Except ApiError T)
    (m : Nat) : ∀ (r : Nat) (s : ApiKeyState) (le : Option ApiError), r ≤ m →
    ∀ i k e, FbStep.call i k (Except.error e) ∈ (fallbackLoop call m r s le).steps →
      i + 1 < m →
      ∃ k2 r2, FbStep.call (i + 1) k2 r2 ∈ (fallbackLoop call m r s le).steps
        ∧ (isAuthError e = false → k2 = k) := by
  intro r
  induction r with
  | zero => intro s le _ i k e hmem; simp [fallbackLoop_zero] at hmem
  | succ r ih =>
    intro s le hr i k e hmem hnext
    rcases hkey : getCurrentApiKey s with e0 | key
    · rw [fallbackLoop_succ_keyfail hkey] at hmem ⊢
      simp only [List.mem_cons, List.mem_append] at hmem
      rcases hmem with h1 | h1 | h1
      · exact FbStep.noConfusion h1
      · by_cases hr0 : 0 < r <;> simp [hr0] at h1
      · obtain ⟨k2, r2, hmem2, hk2⟩ := ih s (some e0) (by omega) i k e h1 hnext
        exact ⟨k2, r2,
          List.mem_cons.mpr (Or.inr (List.mem_append.mpr (Or.inr hmem2))), hk2⟩
    · rcases hcall : call (m - (r + 1)) key with e0 | v
      · rw [fallbackLoop_succ_err hkey hcall] at hmem ⊢
        simp only [List.mem_cons, List.mem_append] at hmem
        rcases hmem with h1 | (h1 | h1) | h1
        · rw [FbStep.call.injEq] at h1
          obtain ⟨hi, hk, he⟩ := h1
          rw [Except.error.injEq] at he
          subst hi
          subst he
          obtain ⟨rr, rfl⟩ : ∃ rr, r = rr + 1 := ⟨r - 1, by omega⟩
          have hlen : s.keys.length ≠ 0 := by
            intro h0
            unfold getCurrentApiKey at hkey
            rw [if_pos h0] at hkey
            exact Except.noConfusion hkey
          have hidx : m - (rr + 1) = m - (rr + 1 + 1) + 1 := by omega
          by_cases hauth : isAuthError e = true
          · rw [if_pos hauth]
            have hlen2 : (rotateState s).keys.length ≠ 0 := by
              rw [rotateState_keys]
              exact hlen
            have hkey2 := getCurrentApiKey_ok_of_ne_zero (rotateState s) hlen2
            rcases hc2 : call (m - (rr + 1))
                ((rotateState s).keys.getD (rotateState s).currentApiKeyIndex "") with e2 | v2
            · refine ⟨(rotateState s).keys.getD (rotateState s).currentApiKeyIndex "",
                Except.error e2, ?_, ?_⟩
              · refine List.mem_cons.mpr (Or.inr (List.mem_append.mpr (Or.inr ?_)))
                rw [fallbackLoop_succ_err hkey2 hc2, ← hidx]
                exact List.mem_cons_self _ _
              · intro hcontra
                rw [hauth] at hcontra
                exact absurd hcontra (by simp)
            · refine ⟨(rotateState s).keys.getD (rotateState s).currentApiKeyIndex "",
                Except.ok v2, ?_, ?_⟩
              · refine List.mem_cons.mpr (Or.inr (List.mem_append.mpr (Or.inr ?_)))
                rw [fallbackLoop_succ_ok hkey2 hc2, ← hidx]
                exact List.mem_cons_self _ _
              · intro hcontra
                rw [hauth] at hcontra
                exact absurd hcontra (by simp)
          · rw [if_neg hauth]
            rcases hc2 : call (m - (rr + 1)) key with e2 | v2
            · refine ⟨key, Except.error e2, ?_, fun _ => hk.symm⟩
              refine List.mem_cons.mpr (Or.inr (List.mem_append.mpr (Or.inr ?_)))
              rw [fallbackLoop_succ_err hkey hc2, ← hidx]
              exact List.mem_cons_self _ _
            · refine ⟨key, Except.ok v2, ?_, fun _ => hk.symm⟩
              refine List.mem_cons.mpr (Or.inr (List.mem_append.mpr (Or.inr ?_)))
              rw [fallbackLoop_succ_ok hkey hc2, ← hidx]
              exact List.mem_cons_self _ _
        · by_cases hauth : isAuthError e0 = true <;> simp [hauth] at h1
        · by_cases hr0 : 0 < r <;> simp [hr0] at h1
        · obtain ⟨k2, r2, hmem2, hk2⟩ := ih _ (some e0) (by omega) i k e h1 hnext
          exact ⟨k2, r2,
            List.mem_cons.mpr (Or.inr (List.mem_append.mpr (Or.inr hmem2))), hk2⟩
      · rw [fallbackLoop_succ_ok hkey hcall] at hmem
        simp only [List.mem_singleton, FbStep.call.injEq] at hmem
        exact absurd hmem.2.2 (by simp)

theorem infix_cons_append {α : Type} {l l2 : List α} (a : α) (pre : List α)
    (h : List.IsInfix l l2) : List.IsInfix l (a :: (pre ++ l2)) := by
  obtain ⟨s1, t1, hst⟩ := h
  exact ⟨a :: (pre ++ s1), t1, by rw [← hst]; simp [List.append_assoc]⟩

theorem fallbackLoop_delay {T : Type} (call : Nat → String → Except ApiError T)
    (m : Nat) : ∀ (r : Nat) (s : ApiKeyState) (le : Option ApiError), r ≤ m →
    ∀ i k e, FbStep.call i k (Except.error e) ∈ (fallbackLoop call m r s le).steps →
      isAuthError e = false → i + 1 < m →
      List.IsInfix [FbStep.call i k (Except.error e), FbStep.slept (2 ^ i)]
        (fallbackLoop call m r s le).steps := by
  intro r
  induction r with
  | zero => intro s le _ i k e hmem; simp [fallbackLoop_zero] at hmem
  | succ r ih =>
    intro s le hr i k e hmem hauthf hnext
    rcases hkey : getCurrentApiKey s with e0 | key
    · rw [fallbackLoop_succ_keyfail hkey] at hmem ⊢
      simp only [List.mem_cons, List.mem_append] at hmem
      rcases hmem with h1 | h1 | h1
      · exact FbStep.noConfusion h1
      · by_cases hr0 : 0 < r <;> simp [hr0] at h1
      · exact infix_cons_append _ _ (ih s (some e0) (by omega) i k e h1 hauthf hnext)
    · rcases hcall : call (m - (r + 1)) key with e0 | v
      · rw [fallbackLoop_succ_err hkey hcall] at hmem ⊢
        simp only [List.mem_cons, List.mem_append] at hmem
        rcases hmem with h1 | (h1 | h1) | h1
        · rw [FbStep.call.injEq] at h1
          obtain ⟨hi, hk, he⟩ := h1
          rw [Except.error.injEq] at he
          subst hi
          subst he
          subst hk
          have hr0 : 0 < r := by omega
          refine ⟨[], (fallbackLoop call m r s (some e)).steps, ?_⟩
          simp [hauthf, hr0]
        · by_cases hauth : isAuthError e0 = true <;> simp [hauth] at h1
        · by_cases hr0 : 0 < r <;> simp [hr0] at h1
        · exact infix_cons_append _ _ (ih _ (some e0) (by omega) i k e h1 hauthf hnext)
      · rw [fallbackLoop_succ_ok hkey hcall] at hmem
        simp only [List.mem_singleton, FbStep.call.injEq] at hmem
        exact absurd hmem.2.2 (by simp)

theorem getLast?_cons_of_ne_nil {α : Type} (a : α) (l : List α) (h : l ≠ []) :
    (a :: l).getLast? = l.getLast? := by
  cases l with
  | nil => exact absurd rfl h
  | cons b t => exact List.getLast?_cons_cons

theorem recordedErrors_append {T : Type} (l1 l2 : List (FbStep T)) :
    recordedErrors (l1 ++ l2) = recordedErrors l1 ++ recordedErrors l2 := by
  unfold recordedErrors
  exact List.filterMap_append l1 l2 _

theorem fallbackLoop_last_error {T : Type} (call : Nat → String → Except ApiError T)
    (m : Nat) : ∀ (r : Nat) (s : ApiKeyState) (le : Option ApiError) (e2 : ApiError),
      (fallbackLoop call m r s le).result = Except.error e2 →
      (recordedErrors (fallbackLoop call m r s le).steps = []
        → e2 = le.getD ⟨"All API key attempts failed", none⟩)
      ∧ (recordedErrors (fallbackLoop call m r s le).steps ≠ []
        → (recordedErrors (fallbackLoop call m r s le).steps).getLast? = some e2) := by
  intro r
  induction r with
  | zero =>
    intro s le e2 hres
    rw [fallbackLoop_zero] at hres ⊢
    constructor
    · intro _
      exact (Except.error.inj hres).symm
    · intro habs
      exact absurd rfl habs
  | succ r ih =>
    intro s le e2 hres
    rcases hkey : getCurrentApiKey s with e0 | key
    · rw [fallbackLoop_succ_keyfail hkey] at hres ⊢
      have hrec : recordedErrors (FbStep.keyLookupFailed (m - (r + 1)) e0
          :: ((if 0 < r then [FbStep.slept (2 ^ (m - (r + 1)))] else [])
            ++ (fallbackLoop call m r s (some e0)).steps))
          = e0 :: recordedErrors (fallbackLoop call m r s (some e0)).steps := by
        by_cases hr0 : 0 < r <;>
          simp [hr0, recordedErrors, List.filterMap_cons, List.filterMap_append]
      rw [hrec]
      have hres2 : (fallbackLoop call m r s (some e0)).result = Except.error e2 := hres
      have hih := ih s (some e0) e2 hres2
      constructor
      · intro habs
        exact absurd habs (by simp)
      · intro _
        by_cases hrc : recordedErrors (fallbackLoop call m r s (some e0)).steps = []
        · rw [hrc]
          have := hih.1 hrc
          simp only [Option.getD_some] at this
          rw [this]
          rfl
        · rw [getLast?_cons_of_ne_nil _ _ hrc]
          exact hih.2 hrc
    · rcases hcall : call (m - (r + 1)) key with e0 | v
      · rw [fallbackLoop_succ_err hkey hcall] at hres ⊢
        have hrec : recordedErrors (FbStep.call (m - (r + 1)) key (Except.error e0)
            :: (((if isAuthError e0 then
                    [FbStep.rotated (if isAuthError e0 then rotateState s
                      else s).currentApiKeyIndex]
                  else [])
              ++ (if 0 < r then [FbStep.slept (2 ^ (m - (r + 1)))] else []))
              ++ (fallbackLoop call m r (if isAuthError e0 then rotateState s else s)
                  (some e0)).steps))
            = e0 :: recordedErrors (fallbackLoop call m r
                (if isAuthError e0 then rotateState s else s) (some e0)).steps := by
          by_cases hauth : isAuthError e0 = true <;> by_cases hr0 : 0 < r <;>
            simp [hauth, hr0, recordedErrors, List.filterMap_cons, List.filterMap_append]
        rw [hrec]
        have hres2 : (fallbackLoop call m r (if isAuthError e0 then rotateState s else s)
            (some e0)).result = Except.error e2 := hres
        have hih := ih _ (some e0) e2 hres2
        constructor
        · intro habs
          exact absurd habs (by simp)
        · intro _
          by_cases hrc : recordedErrors (fallbackLoop call m r
              (if isAuthError e0 then rotateState s else s) (some e0)).steps = []
          · rw [hrc]
            have := hih.1 hrc
            simp only [Option.getD_some] at this
            rw [this]
            rfl
          · rw [getLast?_cons_of_ne_nil _ _ hrc]
            exact hih.2 hrc
      · rw [fallbackLoop_succ_ok hkey hcall] at hres
        exact absurd hres (by simp)

/-- C1: for every call function (as an oracle over invocations) and
every attempt budget `maxRetries ≥ 1`, `executeWithApiFallback`:
(i) returns the value of the first successful invocation, making no
further attempts after it; (ii) finishes with the key pool rotated
exactly once per recorded failure whose `error.response?.status` is 401
or 403 and untouched by every other failure (the fold of the rotation
effect over the trace); (iii) after any failure with budget remaining
the next attempt is made, with the same key whenever the failure was
not an auth rejection; (iv) a retried non-auth failure is immediately
followed in the trace by the backoff sleep of `2 ^ attempt` seconds
(attempt zero-indexed); and (v) once the budget is exhausted the last
observed error is thrown, or the generic `All API key attempts failed`
error if none was recorded. -/
theorem executeWithApiFallback_spec {T : Type} (call : Nat → String → Except ApiError T)
    (m : Nat) (s : ApiKeyState) (hm : 1 ≤ m) (R : FbRun T)
    (hR : R = executeWithApiFallback call m s) :
    (∀ i k v, FbStep.call i k (Except.ok v) ∈ R.steps →
        R.result = Except.ok v
        ∧ ∀ j k2 r2, FbStep.call j k2 r2 ∈ R.steps → j ≤ i)
    ∧ R.state = R.steps.foldl stepRotEffect s
    ∧ (∀ i k e, FbStep.call i k (Except.error e) ∈ R.steps → i + 1 < m →
        ∃ k2 r2, FbStep.call (i + 1) k2 r2 ∈ R.steps
          ∧ (isAuthError e = false → k2 = k))
    ∧ (∀ i k e, FbStep.call i k (Except.error e) ∈ R.steps → isAuthError e = false →
        i + 1 < m →
        List.IsInfix [FbStep.call i k (Except.error e), FbStep.slept (2 ^ i)] R.steps)
    ∧ (∀ e2, R.result = Except.error e2 →
        (recordedErrors R.steps = [] → e2 = ⟨"All API key attempts failed", none⟩)
        ∧ (recordedErrors R.steps ≠ [] → (recordedErrors R.steps).getLast? = some e2)) := by
  subst hR
  have hm2 : 1 ≤ m := hm
  refine ⟨?_, ?_, ?_, ?_, ?_⟩
  · intro i k v hmem
    exact fallbackLoop_first_success call m m s none (le_refl m) i k v hmem
  · exact fallbackLoop_state_fold call m m s none
  · intro i k e hmem hnext
    exact fallbackLoop_retry call m m s none (le_refl m) i k e hmem hnext
  · intro i k e hmem hauthf hnext
    exact fallbackLoop_delay call m m s none (le_refl m) i k e hmem hauthf hnext
  · intro e2 hres
    have h := fallbackLoop_last_error call m m s none e2 hres
    exact ⟨fun hnil => h.1 hnil, h.2⟩

theorem executeWithApiFallback_spec_witness :
    (∀ i k v, FbStep.call i k (Except.ok v)
          ∈ (executeWithApiFallback demoCall 2 demoPool).steps →
        (executeWithApiFallback demoCall 2 demoPool).result = Except.ok v
        ∧ ∀ j k2 r2, FbStep.call j k2 r2
            ∈ (executeWithApiFallback demoCall 2 demoPool).steps → j ≤ i)
    ∧ (executeWithApiFallback demoCall 2 demoPool).state
        = (executeWithApiFallback demoCall 2 demoPool).steps.foldl stepRotEffect demoPool
    ∧ (∀ i k e, FbStep.call i k (Except.error e)
          ∈ (executeWithApiFallback demoCall 2 demoPool).steps → i + 1 < 2 →
        ∃ k2 r2, FbStep.call (i + 1) k2 r2
            ∈ (executeWithApiFallback demoCall 2 demoPool).steps
          ∧ (isAuthError e = false → k2 = k))
    ∧ (∀ i k e, FbStep.call i k (Except.error e)
          ∈ (executeWithApiFallback demoCall 2 demoPool).steps → isAuthError e = false →
        i + 1 < 2 →
        List.IsInfix [FbStep.call i k (Except.error e), FbStep.slept (2 ^ i)]
          (executeWithApiFallback demoCall 2 demoPool).steps)
    ∧ (∀ e2, (executeWithApiFallback demoCall 2 demoPool).result = Except.error e2 →
        (recordedErrors (executeWithApiFallback demoCall 2 demoPool).steps = []
          → e2 = ⟨"All API key attempts failed", none⟩)
        ∧ (recordedErrors (executeWithApiFallback demoCall 2 demoPool).steps ≠ []
          → (recordedErrors
              (executeWithApiFallback demoCall 2 demoPool).steps).getLast? = some e2)) :=
  executeWithApiFallback_spec demoCall 2 demoPool (by decide)
    (executeWithApiFallback demoCall 2 demoPool) rfl

end StabMCP
